import Mathlib

/-!
Verification development for the conduit-connector-s3 core: the position
codec, the snapshot iterator, the combined (snapshot to CDC) iterator, the
CDC change-detection scan, and the destination format encoders, embedded
shallowly in Lean. Machine timestamps are modelled as natural numbers of
epoch seconds (the codec works at second granularity); S3 listing pages and
objects are explicit data.
-/

namespace ConduitS3

/-! ## Decimal digit rendering and parsing (helper for the position codec) -/

/-- Decimal digit value to character, 0 ↦ the character 0, …, 9 ↦ 9. -/
def digitToChar (d : Nat) : Char := Char.ofNat (48 + d)

/-- Fuelled digit extraction, structurally recursive on the fuel so that
it reduces inside the kernel; the fuel is always taken at least the number
itself, which bounds the digit count. -/
def natDigitsRevGo : Nat → Nat → List Nat
  | _, 0 => []
  | 0, _ + 1 => []
  | fuel + 1, n + 1 => ((n + 1) % 10) :: natDigitsRevGo fuel ((n + 1) / 10)

/-- The decimal digits of a number, least significant first; empty for 0. -/
def natDigitsRev (n : Nat) : List Nat := natDigitsRevGo n n

/-- Decimal rendering of a number as characters, most significant first. -/
def natToChars (n : Nat) : List Char :=
  if n = 0 then ['0'] else ((natDigitsRev n).reverse).map digitToChar

/-- Value of a big-endian digit list. -/
def digitsToNat (l : List Nat) : Nat := l.foldl (fun acc d => acc * 10 + d) 0

/-- Digit character to its value, none for a non-digit. -/
def charToDigit? (c : Char) : Option Nat :=
  if 48 ≤ c.toNat ∧ c.toNat ≤ 57 then some (c.toNat - 48) else none

/-- Parse a nonempty all-digit character list as a natural number. -/
def charsToNat? (cs : List Char) : Option Nat :=
  if cs.isEmpty then none
  else if cs.all (fun c => (charToDigit? c).isSome) then
    some (digitsToNat (cs.map (fun c => (charToDigit? c).getD 0)))
  else none

/-! ## Position codec

Modelled from the spec: the source/position package itself is not among the
provided source files (only its callers are), so `ParseRecordPosition`,
`ToRecordPosition` and `ConvertToCDCPosition` are modelled from the spec's
section 4.1: serialized form "key underscore modeChar epochSeconds" with
modeChar s for Snapshot and c for CDC, the parser splitting on the last
underscore, empty input parsing to the zero Position, and unknown mode
characters or non-integer timestamps rejected. -/

/-- Position mode tag: snapshot scan or change-data-capture. -/
inductive PositionType
  | snapshot
  | cdc
deriving DecidableEq, Repr

/-- The resumable cursor: record key, mode tag, timestamp in epoch seconds. -/
structure Position where
  key : String
  type : PositionType
  timestamp : Nat
deriving DecidableEq, Repr

/-- The zero Position: empty key, Snapshot mode, zero time. -/
def Position.zero : Position := ⟨"", PositionType.snapshot, 0⟩

/-- Mode character of a position type. -/
def modeChar : PositionType → Char
  | PositionType.snapshot => 's'
  | PositionType.cdc => 'c'

/-- Modelled from the spec: ToRecordPosition, at the character-list level. -/
def serializePositionChars (p : Position) : List Char :=
  p.key.data ++ '_' :: modeChar p.type :: natToChars p.timestamp

/-- Modelled from the spec: ToRecordPosition. -/
def serializePosition (p : Position) : String :=
  ⟨serializePositionChars p⟩

/-- Split a character list at the first occurrence of a character:
returns the part before and the part after it. -/
def breakFirst (c : Char) : List Char → Option (List Char × List Char)
  | [] => none
  | x :: xs =>
    if x = c then some ([], xs)
    else (breakFirst c xs).map (fun pr => (x :: pr.1, pr.2))

/-- Split a character list at its last underscore: the part before it and
the part after it. -/
def splitLastUnderscore (cs : List Char) : Option (List Char × List Char) :=
  (breakFirst '_' cs.reverse).map (fun pr => (pr.2.reverse, pr.1.reverse))

/-- Modelled from the spec: ParseRecordPosition, at the character-list
level. Empty input yields the zero Position; a missing underscore, an
unknown mode character or a non-integer timestamp is an invalid position. -/
def parsePositionChars : List Char → Except String Position
  | [] => Except.ok Position.zero
  | cs =>
    match splitLastUnderscore cs with
    | none => Except.error "invalid position format"
    | some (keyPart, rest) =>
      match rest with
      | [] => Except.error "invalid position format"
      | m :: ts =>
        match (if m = 's' then some PositionType.snapshot
               else if m = 'c' then some PositionType.cdc else none),
              charsToNat? ts with
        | some ty, some n => Except.ok ⟨⟨keyPart⟩, ty, n⟩
        | _, _ => Except.error "invalid position format"

/-- Modelled from the spec: ParseRecordPosition. -/
def parsePosition (s : String) : Except String Position :=
  parsePositionChars s.data

/-- Modelled from the spec: ConvertToCDCPosition re-encodes the mode char
as c, leaving key and timestamp unchanged (parse, retag, serialize). -/
def convertToCDCPosition (s : String) : Except String String :=
  (parsePosition s).map (fun p => serializePosition ⟨p.key, PositionType.cdc, p.timestamp⟩)

/-! ## Records and the S3 world model

Record is the slice of the SDK record type this connector populates:
operation, position bytes, raw key, raw after-payload, and metadata.
The S3 client is modelled by its observable behaviour: the sequence of
ListObjectsV2 pages (a page is a list of object keys; a failed page fetch
is none) and the GetObject lookup table. -/

/-- Record operation, as produced by the SDK constructors used here. -/
inductive Operation
  | snapshot
  | create
  | update
  | delete
deriving DecidableEq, Repr

/-- The fields of the SDK record this connector populates. -/
structure Record where
  operation : Operation
  position : String
  key : String
  payloadAfter : String
  metadata : List (String × String)
deriving DecidableEq, Repr

/-- The zero value of the record type. -/
def Record.zero : Record := ⟨Operation.snapshot, "", "", "", []⟩

/-- An S3 object as observed through GetObject: key, last-modified instant
(epoch seconds), body, content type and user metadata. bodyReadFails
models an io.ReadAll failure while streaming the body. -/
structure S3Object where
  key : String
  lastModified : Nat
  body : String
  contentType : String
  metadata : List (String × String)
  bodyReadFails : Bool
deriving DecidableEq, Repr

/-- The S3 client as seen by the snapshot path: ListObjectsV2 pages (none
is a page whose fetch fails) and the object store backing GetObject. -/
structure Client where
  pages : List (Option (List String))
  objects : List S3Object
deriving DecidableEq, Repr

/-- GetObject: look an object up by key; none models a fetch error. -/
def Client.getObject (c : Client) (k : String) : Option S3Object :=
  c.objects.find? (fun o => o.key == k)

/-- Error outcomes surfaced by the iterators. -/
inductive IterError
  | backoffRetry
  | pageFetchFailed
  | objectFetchFailed
  | bodyReadFailed
  | indexOutOfRange
  | invalidPosition (msg : String)
  | invalidOperation
  | noInitializedIterator
  | tombError (msg : String)
deriving DecidableEq, Repr

/-- Outcome of one Next call. blocks models a Next that would block on its
channels (CDC mode only). -/
inductive NextOutcome
  | ok (r : Record)
  | err (e : IterError)
  | blocks
deriving DecidableEq, Repr

/-! ## Snapshot iterator (source/iterator/snapshot_iterator.go) -/

/-- State of the snapshot iterator: the not-yet-fetched paginator pages,
the current page, the read index into it, and the running maximum
last-modified. (bucket and prefix only route the AWS calls and live
inside the client model.) -/
structure SnapshotIterator where
  client : Client
  remaining : List (Option (List String))
  page : Option (List String)
  index : Nat
  maxLastModified : Nat
deriving DecidableEq, Repr

/-- NewSnapshotIterator: fresh paginator over the bucket listing, the
position argument's Timestamp seeding maxLastModified. -/
def NewSnapshotIterator (client : Client) (p : Position) : SnapshotIterator :=
  { client := client, remaining := client.pages, page := none, index := 0,
    maxLastModified := p.timestamp }

/-- shouldRefreshPage: the page is nil or fully consumed. -/
def SnapshotIterator.shouldRefreshPage (w : SnapshotIterator) : Bool :=
  w.page.isNone || (w.page.getD []).length == w.index

/-- The paginator loop inside refreshPage: fetch pages until a non-empty
one appears; a failed fetch surfaces, exhaustion leaves no page. Returns
the new current page, the rest of the paginator, and the error if any. -/
def refreshLoop : List (Option (List String)) →
    Option (List String) × List (Option (List String)) × Option IterError
  | [] => (none, [], none)
  | none :: rest => (none, rest, some IterError.pageFetchFailed)
  | some pg :: rest =>
    if pg.isEmpty then refreshLoop rest else (some pg, rest, none)

/-- refreshPage: run the paginator loop; if no page was found, signal
ErrBackoffRetry (paginator exhausted). -/
def SnapshotIterator.refreshPage (w : SnapshotIterator) :
    SnapshotIterator × Option IterError :=
  let r := refreshLoop w.remaining
  match r.2.2 with
  | some e => ({ w with page := r.1, index := 0, remaining := r.2.1 }, some e)
  | none =>
    match r.1 with
    | none => ({ w with page := none, index := 0, remaining := r.2.1 },
               some IterError.backoffRetry)
    | some pg => ({ w with page := some pg, index := 0, remaining := r.2.1 }, none)

/-- SnapshotIterator.HasNext: refresh if needed; true iff that succeeds. -/
def SnapshotIterator.hasNext (w : SnapshotIterator) : SnapshotIterator × Bool :=
  if w.shouldRefreshPage then
    match w.refreshPage with
    | (w', none) => (w', true)
    | (w', some _) => (w', false)
  else (w, true)

/-- Metadata key carrying the object's content type. -/
def metaContentTypeKey : String := "s3.contentType"

/-- SnapshotIterator.Next: refresh if needed, read the entry key and
advance the index, GetObject, update maxLastModified, read the body, and
build a Snapshot record whose Position carries the key and the current
maxLastModified. indexOutOfRange stands for the Go runtime panic of an
out-of-bounds page access, unreachable from well-formed states. -/
def SnapshotIterator.next (w : SnapshotIterator) : SnapshotIterator × NextOutcome :=
  let step := if w.shouldRefreshPage then w.refreshPage else (w, none)
  match step with
  | (w1, some e) => (w1, NextOutcome.err e)
  | (w1, none) =>
    match w1.page with
    | none => (w1, NextOutcome.err IterError.indexOutOfRange)
    | some pg =>
      match pg[w1.index]? with
      | none => (w1, NextOutcome.err IterError.indexOutOfRange)
      | some key =>
        let w2 := { w1 with index := w1.index + 1 }
        match w2.client.getObject key with
        | none => (w2, NextOutcome.err IterError.objectFetchFailed)
        | some obj =>
          let w3 := if w2.maxLastModified < obj.lastModified
                    then { w2 with maxLastModified := obj.lastModified } else w2
          if obj.bodyReadFails then (w3, NextOutcome.err IterError.bodyReadFailed)
          else
            (w3, NextOutcome.ok
              { operation := Operation.snapshot,
                position := serializePosition ⟨key, PositionType.snapshot, w3.maxLastModified⟩,
                key := key,
                payloadAfter := obj.body,
                metadata := (metaContentTypeKey, obj.contentType) :: obj.metadata })

/-! ## CDC iterator channel state machine (source file of CDCIterator)

The CDC iterator runs two goroutines supervised by a tomb, publishing
records on a buffer channel. We model the caller-visible state: the buffer
contents, whether the buffer channel has been closed (flush closes it when
it returns), and the tomb state. Go channel semantics embedded here: a
receive from a closed empty channel yields the zero value immediately, and
a select among several ready cases picks one of them nondeterministically,
so Next is modelled as the list of its possible results. -/

/-- Supervisor state: running (Alive), dying (killed, goroutines still
returning) or dead (both returned) with the stored error. -/
inductive TombState
  | running
  | dying (err : String)
  | dead (err : String)
deriving DecidableEq, Repr

/-- Caller-visible CDC iterator state. startFrom is the watermark the
iterator was created with (the lastModified field at creation). -/
structure CDCMachine where
  startFrom : Nat
  buffer : List Record
  bufferClosed : Bool
  tomb : TombState
deriving DecidableEq, Repr

/-- NewCDCIterator: empty open buffer, live tomb, watermark from. -/
def NewCDCIterator (fromTime : Nat) : CDCMachine :=
  { startFrom := fromTime, buffer := [], bufferClosed := false,
    tomb := TombState.running }

/-- CDCIterator.HasNext: records buffered, or the tomb is no longer alive
(so the caller will call Next once more and fetch the stored error). -/
def CDCMachine.hasNext (m : CDCMachine) : Bool :=
  !m.buffer.isEmpty || !(m.tomb == TombState.running)

/-- CDCIterator.Next: select over the buffer channel and the tomb's Dead
channel. The buffer case is ready when a record is buffered or the channel
is closed (a closed empty channel yields the zero record); the Dead case is
ready when the tomb is dead. All ready results are possible; with no case
ready the call blocks. The caller's context is modelled as never
cancelled. -/
def CDCMachine.nextResults (m : CDCMachine) : List (CDCMachine × NextOutcome) :=
  let bufferCase : List (CDCMachine × NextOutcome) :=
    match m.buffer with
    | r :: rest => [({ m with buffer := rest }, NextOutcome.ok r)]
    | [] => if m.bufferClosed then [(m, NextOutcome.ok Record.zero)] else []
  let deadCase : List (CDCMachine × NextOutcome) :=
    match m.tomb with
    | TombState.dead e => [(m, NextOutcome.err (IterError.tombError e))]
    | _ => []
  match bufferCase ++ deadCase with
  | [] => [(m, NextOutcome.blocks)]
  | l => l

/-- The terminal state after the supervised tasks stopped with an error:
both goroutines returned (tomb dead), flush's deferred close ran, and the
buffer has been drained. -/
def CDCMachine.deadState (fromTime : Nat) (err : String) : CDCMachine :=
  { startFrom := fromTime, buffer := [], bufferClosed := true,
    tomb := TombState.dead err }

/-! ## Combined iterator (source/iterator/combined_iterator.go) -/

/-- The combined iterator: at most one of the two delegates is live. -/
structure CombinedIterator where
  snapshotIterator : Option SnapshotIterator
  cdcIterator : Option CDCMachine
  client : Client
deriving DecidableEq, Repr

/-- NewCombinedIterator: Snapshot mode zeroes the whole position (with a
printed warning when the key is non-empty) and builds a snapshot iterator;
CDC mode builds a CDC iterator from the position's Timestamp. -/
def NewCombinedIterator (client : Client) (p : Position) : CombinedIterator :=
  match p.type with
  | PositionType.snapshot =>
    { snapshotIterator := some (NewSnapshotIterator client Position.zero),
      cdcIterator := none, client := client }
  | PositionType.cdc =>
    { snapshotIterator := none, cdcIterator := some (NewCDCIterator p.timestamp),
      client := client }

/-- switchToCDCIterator: seed the CDC iterator with the snapshot's
maxLastModified, or the current time when that is zero (empty bucket), and
clear the snapshot iterator. Never called without a snapshot iterator. -/
def CombinedIterator.switchToCDCIterator (c : CombinedIterator) (now : Nat) :
    CombinedIterator :=
  match c.snapshotIterator with
  | none => c
  | some si =>
    let ts := if si.maxLastModified = 0 then now else si.maxLastModified
    { c with cdcIterator := some (NewCDCIterator ts), snapshotIterator := none }

/-- CombinedIterator.HasNext: in snapshot mode, a false snapshot HasNext
switches to the CDC iterator and reports false; in CDC mode delegate. -/
def CombinedIterator.hasNext (c : CombinedIterator) (now : Nat) :
    CombinedIterator × Bool :=
  match c.snapshotIterator with
  | some si =>
    match si.hasNext with
    | (si', true) => ({ c with snapshotIterator := some si' }, true)
    | (si', false) =>
      (CombinedIterator.switchToCDCIterator { c with snapshotIterator := some si' } now,
       false)
  | none =>
    match c.cdcIterator with
    | some m => (c, m.hasNext)
    | none => (c, false)

/-- CombinedIterator.Next: in snapshot mode, delegate to the snapshot
iterator; after its record, when it has no next record, switch to the CDC
iterator and rewrite the record's position with ConvertToCDCPosition. In
CDC mode delegate (all possible select results). -/
def CombinedIterator.next (c : CombinedIterator) (now : Nat) :
    List (CombinedIterator × NextOutcome) :=
  match c.snapshotIterator with
  | some si =>
    match si.next with
    | (si1, NextOutcome.ok r) =>
      match si1.hasNext with
      | (si2, true) => [({ c with snapshotIterator := some si2 }, NextOutcome.ok r)]
      | (si2, false) =>
        let c2 := CombinedIterator.switchToCDCIterator
          { c with snapshotIterator := some si2 } now
        match convertToCDCPosition r.position with
        | Except.error e => [(c2, NextOutcome.err (IterError.invalidPosition e))]
        | Except.ok pos => [(c2, NextOutcome.ok { r with position := pos })]
    | (si1, out) => [({ c with snapshotIterator := some si1 }, out)]
  | none =>
    match c.cdcIterator with
    | some m =>
      (m.nextResults).map (fun pr => ({ c with cdcIterator := some pr.1 }, pr.2))
    | none => [(c, NextOutcome.err IterError.noInitializedIterator)]

/-! ## CDC change detection (populateCache, startCDC, buildRecord) -/

/-- A row of a ListObjectVersions response, in Versions or DeleteMarkers. -/
structure VersionEntry where
  key : String
  lastModified : Nat
  isLatest : Bool
deriving DecidableEq, Repr

/-- One page of a ListObjectVersions response; the pagination chain
(IsTruncated and NextKeyMarker) is the list structure of the pages. -/
structure ListPage where
  versions : List VersionEntry
  deleteMarkers : List VersionEntry
deriving DecidableEq, Repr

/-- A detected change: key, inferred operation, last-modified. -/
structure CacheEntry where
  key : String
  operation : Operation
  lastModified : Nat
deriving DecidableEq, Repr

/-- The Create entries one page appends: latest versions strictly newer
than the watermark. -/
def appendedCreates (fromTime : Nat) (pg : ListPage) : List CacheEntry :=
  (pg.versions.filter (fun v => v.isLatest && decide (fromTime < v.lastModified))).map
    (fun v => ⟨v.key, Operation.create, v.lastModified⟩)

/-- The keys one page records in its updatedObjects set: every version row
that is not appended as a Create (the else branch of the scan). -/
def pageUpdatedKeys (fromTime : Nat) (pg : ListPage) : List String :=
  (pg.versions.filter (fun v => !(v.isLatest && decide (fromTime < v.lastModified)))).map
    (fun v => v.key)

/-- The promotion pass: any cache entry whose key is in the updated set
has its operation overwritten to Update. -/
def promote (keys : List String) (cache : List CacheEntry) : List CacheEntry :=
  cache.map (fun e =>
    if keys.contains e.key then { e with operation := Operation.update } else e)

/-- The Delete entries one page appends: latest delete markers strictly
newer than the watermark. -/
def appendedDeletes (fromTime : Nat) (pg : ListPage) : List CacheEntry :=
  (pg.deleteMarkers.filter (fun v => v.isLatest && decide (fromTime < v.lastModified))).map
    (fun v => ⟨v.key, Operation.delete, v.lastModified⟩)

/-- One call of populateCache on one page: append the Creates, promote the
whole cache so far with this page's updated keys, then append the
Deletes. -/
def populateCachePage (fromTime : Nat) (cache : List CacheEntry) (pg : ListPage) :
    List CacheEntry :=
  promote (pageUpdatedKeys fromTime pg) (cache ++ appendedCreates fromTime pg)
    ++ appendedDeletes fromTime pg

/-- populateCache: recurse through the pages while IsTruncated, threading
the accumulated cache. -/
def populateCache (fromTime : Nat) (cache : List CacheEntry) :
    List ListPage → List CacheEntry
  | [] => cache
  | pg :: pgs => populateCache fromTime (populateCachePage fromTime cache pg) pgs

/-- Ascending order on cache entries by lastModified; sort.Slice is called
with the strict Before comparator, whose sorted outcome is exactly a
non-decreasing ordering of the batch. -/
def lmLE (a b : CacheEntry) : Prop := a.lastModified ≤ b.lastModified

instance : DecidableRel lmLE := fun a b =>
  inferInstanceAs (Decidable (a.lastModified ≤ b.lastModified))

instance : IsTotal CacheEntry lmLE := ⟨fun a b => Nat.le_total a.lastModified b.lastModified⟩

instance : IsTrans CacheEntry lmLE := ⟨fun _ _ _ h1 h2 => Nat.le_trans h1 h2⟩

/-- One tick of startCDC: populate the cache from this tick's listing; an
empty cache skips the tick, otherwise sort ascending by lastModified, hand
the batch off, and advance the watermark to the batch's last (greatest)
lastModified. Returns the new watermark and the handed-off batch. -/
def cdcTick (w : Nat) (pages : List ListPage) : Nat × List CacheEntry :=
  let cache := populateCache w [] pages
  if cache.isEmpty then (w, [])
  else
    let sorted := List.insertionSort lmLE cache
    ((sorted.getLastD ⟨"", Operation.create, 0⟩).lastModified, sorted)

/-- The startCDC loop over a sequence of tick listings: the watermark after
each tick together with the batch that tick handed to flush. -/
def cdcRun (w : Nat) : List (List ListPage) → List (Nat × List CacheEntry)
  | [] => []
  | t :: ts =>
    let step := cdcTick w t
    step :: cdcRun step.1 ts

/-- buildRecord: fetch the body for Create and Update (an error surfaces
and kills the iterator), none for Delete; the Position carried is CDC mode
with the entry's lastModified. -/
def buildRecord (client : Client) (e : CacheEntry) : Except IterError Record :=
  let p := serializePosition ⟨e.key, PositionType.cdc, e.lastModified⟩
  match e.operation with
  | Operation.create =>
    match client.getObject e.key with
    | none => Except.error IterError.objectFetchFailed
    | some obj =>
      if obj.bodyReadFails then Except.error IterError.bodyReadFailed
      else Except.ok ⟨Operation.create, p, e.key, obj.body,
        (metaContentTypeKey, obj.contentType) :: obj.metadata⟩
  | Operation.update =>
    match client.getObject e.key with
    | none => Except.error IterError.objectFetchFailed
    | some obj =>
      if obj.bodyReadFails then Except.error IterError.bodyReadFailed
      else Except.ok ⟨Operation.update, p, e.key, obj.body,
        (metaContentTypeKey, obj.contentType) :: obj.metadata⟩
  | Operation.delete =>
    Except.ok ⟨Operation.delete, p, e.key, "", []⟩
  | Operation.snapshot => Except.error IterError.invalidOperation

/-! ## Destination format encoders (format package)

The JSON encoder marshals, per record, a struct with fields Operation,
Position, Payload, Key, Metadata and appends a newline. Go's
encoding/json behaviour embedded here: strings are quoted with backslash
escapes for quote and backslash, \n \r \t for those controls, \u00XX for
the other control characters and (HTML-safely) for angle brackets and
ampersand; map keys are emitted in sorted order; struct fields in
declaration order. -/

/-- Operation.String of the SDK operation enum. -/
def opString : Operation → String
  | Operation.snapshot => "snapshot"
  | Operation.create => "create"
  | Operation.update => "update"
  | Operation.delete => "delete"

/-- Hexadecimal digit character (lowercase) of a value below 16. -/
def hexDigitChar (n : Nat) : Char :=
  if n < 10 then Char.ofNat (48 + n) else Char.ofNat (87 + n)

/-- Go encoding/json escaping of one character inside a string literal. -/
def escapeChar (c : Char) : List Char :=
  if c = '"' then ['\\', '"']
  else if c = '\\' then ['\\', '\\']
  else if c = '\n' then ['\\', 'n']
  else if c = '\r' then ['\\', 'r']
  else if c = '\t' then ['\\', 't']
  else if c.toNat < 32 ∨ c = '<' ∨ c = '>' ∨ c = '&' then
    ['\\', 'u', '0', '0', hexDigitChar (c.toNat / 16), hexDigitChar (c.toNat % 16)]
  else [c]

/-- A JSON string literal: quotes around the escaped characters. -/
def quoteJson (s : String) : String :=
  ⟨'"' :: (s.data.map escapeChar).flatten ++ ['"']⟩

/-- Comma-separated concatenation. -/
def joinComma : List String → String
  | [] => ""
  | [s] => s
  | s :: rest => s ++ "," ++ joinComma rest

/-- JSON values occurring in an encoded record line: strings and
string-to-string objects. -/
inductive JVal
  | str (s : String)
  | strObj (fields : List (String × String))
deriving DecidableEq, Repr

/-- Render a JSON value. Object fields are rendered in the given order. -/
def JVal.render : JVal → String
  | JVal.str s => quoteJson s
  | JVal.strObj fs =>
    "\x7b" ++ joinComma
      (fs.map (fun kv => quoteJson kv.1 ++ ":" ++ quoteJson kv.2)) ++ "\x7d"

/-- Render a JSON object with the given fields in the given order. -/
def renderTopObj (fs : List (String × JVal)) : String :=
  "\x7b" ++ joinComma
    (fs.map (fun kv => quoteJson kv.1 ++ ":" ++ kv.2.render)) ++ "\x7d"

/-- Go marshals a map with its keys in sorted (byte-wise) order. -/
def sortByKey (md : List (String × String)) : List (String × String) :=
  List.insertionSort (fun a b => a.1 ≤ b.1) md

/-- The JSON object json.Marshal produces for one jsonRecord value:
Operation is Operation.String, Position, Payload (the after image) and Key
are the raw bytes as strings, Metadata is the metadata map. -/
def jsonRecordFields (r : Record) : List (String × JVal) :=
  [("Operation", JVal.str (opString r.operation)),
   ("Position", JVal.str r.position),
   ("Payload", JVal.str r.payloadAfter),
   ("Key", JVal.str r.key),
   ("Metadata", JVal.strObj (sortByKey r.metadata))]

/-- One marshalled line of makeJSONBytes, before its newline. -/
def jsonRecordLine (r : Record) : String :=
  renderTopObj (jsonRecordFields r)

/-- makeJSONBytes: write each record's marshalled object plus a newline
into the buffer, in input order. -/
def makeJSONBytes (records : List Record) : String :=
  records.foldl (fun buf r => buf ++ jsonRecordLine r ++ "\n") ""

/-- Format.Ext: preferable file extension, bin for formats other than
parquet and json. -/
def formatExt (f : String) : String :=
  if f = "parquet" then "parquet"
  else if f = "json" then "json"
  else "bin"

/-- Format.MimeType: application/json for json, octet-stream otherwise. -/
def formatMimeType (f : String) : String :=
  if f = "json" then "application/json" else "application/octet-stream"

/-- Result of Format.MakeBytes: which encoder the format dispatches to
(the parquet and original encoder bodies are outside the provided
sources, so only the dispatch is modelled for them), or the
unsupported-format error of the default branch. -/
inductive MakeBytesResult
  | jsonBytes (s : String)
  | parquetBytes (records : List Record)
  | originalBytes (records : List Record)
  | unsupportedFormat (f : String)
deriving DecidableEq, Repr

/-- Format.MakeBytes: dispatch on the format; parquet, json and original
each go to their encoder, anything else fails with unsupported format. -/
def formatMakeBytes (f : String) (records : List Record) : MakeBytesResult :=
  if f = "parquet" then MakeBytesResult.parquetBytes records
  else if f = "json" then MakeBytesResult.jsonBytes (makeJSONBytes records)
  else if f = "original" then MakeBytesResult.originalBytes records
  else MakeBytesResult.unsupportedFormat f

/-! ## Derived notions used by the statements

Abstractions of iterator states (the keys still pending in the listing, the
running maximum a run will reach), well-formedness of states and clients,
the caller's read loop over the combined iterator, a line splitter for the
JSON output, and the page-indexed characterization of the CDC cache. All of
these are spec-side: the embedded code above never calls them. -/

/-- The keys of the fetched pages of a listing, failed pages contributing
nothing (only used under goodPagesB, which excludes failed pages). -/
def flattenPages (l : List (Option (List String))) : List String :=
  (l.map (fun o => o.getD [])).flatten

/-- Every page fetch of the paginator succeeds. -/
def goodPagesB (l : List (Option (List String))) : Bool :=
  l.all (fun o => o.isSome)

/-- The key resolves to an object whose body reads cleanly and whose
last-modified instant is a real (non-zero) timestamp. -/
def goodKeyB (cl : Client) (k : String) : Bool :=
  match cl.getObject k with
  | some o => !o.bodyReadFails && decide (0 < o.lastModified)
  | none => false

/-- The object's last-modified instant as GetObject reports it. -/
def objLM (cl : Client) (k : String) : Nat :=
  match cl.getObject k with
  | some o => o.lastModified
  | none => 0

/-- Structural invariant of a snapshot iterator state: the read index
never passes the end of the current page. -/
def SnapshotIterator.wfIndexB (w : SnapshotIterator) : Bool :=
  match w.page with
  | some pg => w.index ≤ pg.length
  | none => true

/-- The keys the snapshot iterator has not yet emitted: the rest of the
current page, then the keys of the remaining pages. -/
def SnapshotIterator.pending (w : SnapshotIterator) : List String :=
  (w.page.getD []).drop w.index ++ flattenPages w.remaining

/-- The value of the running maximum after folding the listed objects'
last-modified instants into it, in listing order. -/
def runMax (cl : Client) (m : Nat) : List String → Nat
  | [] => m
  | k :: ks => runMax cl (max m (objLM cl k)) ks

/-- A snapshot iterator state on which the remaining run is clean: every
remaining page fetch succeeds, the read index is within the current page,
and each pending key resolves to an object with a clean body read and a
non-zero last-modified instant. -/
def SnapshotIterator.goodState (w : SnapshotIterator) : Prop :=
  goodPagesB w.remaining = true ∧ w.wfIndexB = true ∧
  ∀ k ∈ w.pending, goodKeyB w.client k = true

/-- The host's read loop during the snapshot phase: keep calling Next while
the snapshot iterator is live, collecting the records, and stop at the
first non-record outcome or once the iterator has switched to CDC. -/
def combinedRunSnapshot (now : Nat) : Nat → CombinedIterator → List Record × CombinedIterator
  | 0, c => ([], c)
  | fuel + 1, c =>
    match c.snapshotIterator with
    | none => ([], c)
    | some _ =>
      match c.next now with
      | [(c1, NextOutcome.ok r)] =>
        let rest := combinedRunSnapshot now fuel c1
        (r :: rest.1, rest.2)
      | [(c1, _)] => ([], c1)
      | _ => ([], c)

/-- Split a character list into the chunks between its newlines; a
newline-terminated text yields its lines plus a final empty chunk. -/
def splitLines : List Char → List (List Char)
  | [] => [[]]
  | c :: cs =>
    if c = '\n' then [] :: splitLines cs
    else
      match splitLines cs with
      | [] => [[c]]
      | l :: ls => (c :: l) :: ls

/-- The updated-keys sets of a run of listing pages, flattened. -/
def allUpdatedKeys (fromTime : Nat) (pgs : List ListPage) : List String :=
  (pgs.map (pageUpdatedKeys fromTime)).flatten

/-- Page-indexed characterization of the CDC cache: a page's Creates are
promoted by its own and every later page's updated keys, its Deletes only
by strictly later pages' updated keys (each page's Deletes are appended
after its own promotion pass). -/
def specCacheGo (fromTime : Nat) : List ListPage → List CacheEntry
  | [] => []
  | pg :: pgs =>
    promote (pageUpdatedKeys fromTime pg ++ allUpdatedKeys fromTime pgs)
        (appendedCreates fromTime pg)
      ++ promote (allUpdatedKeys fromTime pgs) (appendedDeletes fromTime pg)
      ++ specCacheGo fromTime pgs

/-! ## Digit and codec lemmas -/

theorem digitsToNat_append (l : List Nat) (d : Nat) :
    digitsToNat (l ++ [d]) = 10 * digitsToNat l + d := by
  simp [digitsToNat, List.foldl_append, Nat.mul_comm]

theorem natDigitsRevGo_lt : ∀ fuel n : Nat, ∀ d ∈ natDigitsRevGo fuel n, d < 10 := by
  intro fuel
  induction fuel with
  | zero =>
    intro n d hd
    cases n <;> simp [natDigitsRevGo] at hd
  | succ f ih =>
    intro n d hd
    cases n with
    | zero => simp [natDigitsRevGo] at hd
    | succ m =>
      rw [natDigitsRevGo] at hd
      rcases List.mem_cons.mp hd with h | h
      · subst h; exact Nat.mod_lt _ (by decide)
      · exact ih _ d h

theorem natDigitsRev_lt (n : Nat) : ∀ d ∈ natDigitsRev n, d < 10 :=
  natDigitsRevGo_lt n n

theorem digitsToNat_natDigitsRevGo :
    ∀ fuel n : Nat, n ≤ fuel → digitsToNat ((natDigitsRevGo fuel n).reverse) = n := by
  intro fuel
  induction fuel with
  | zero =>
    intro n hn
    interval_cases n
    simp [natDigitsRevGo, digitsToNat]
  | succ f ih =>
    intro n hn
    cases n with
    | zero => simp [natDigitsRevGo, digitsToNat]
    | succ m =>
      rw [natDigitsRevGo]
      simp only [List.reverse_cons]
      have hle : (m + 1) / 10 ≤ f :=
        Nat.le_of_lt_succ (Nat.lt_of_lt_of_le (Nat.div_lt_self (Nat.succ_pos m) (by decide)) hn)
      rw [digitsToNat_append, ih _ hle]
      omega

theorem digitsToNat_natDigitsRev (n : Nat) :
    digitsToNat ((natDigitsRev n).reverse) = n :=
  digitsToNat_natDigitsRevGo n n (Nat.le_refl n)

theorem charToDigit?_digitToChar (d : Nat) (hd : d < 10) :
    charToDigit? (digitToChar d) = some d := by
  interval_cases d <;> decide

theorem natToChars_digits (n : Nat) : ∀ c ∈ natToChars n, (charToDigit? c).isSome := by
  intro c hc
  unfold natToChars at hc
  split at hc
  · simp at hc; subst hc; decide
  · rcases List.mem_map.mp hc with ⟨d, hd, rfl⟩
    have := natDigitsRev_lt n d (by simpa using List.mem_reverse.mp (by simpa using hd))
    rw [charToDigit?_digitToChar d this]
    rfl

theorem charsToNat?_natToChars (n : Nat) : charsToNat? (natToChars n) = some n := by
  unfold charsToNat?
  have hne : (natToChars n).isEmpty = false := by
    unfold natToChars
    split
    · rfl
    · rename_i h
      match hn : natDigitsRev n with
      | [] =>
        exfalso
        cases n with
        | zero => exact h rfl
        | succ m => rw [natDigitsRev, natDigitsRevGo] at hn; exact List.cons_ne_nil _ _ hn
      | d :: ds =>
        simp [List.isEmpty_iff]
  rw [hne]
  simp only [Bool.false_eq_true, if_false]
  have hall : (natToChars n).all (fun c => (charToDigit? c).isSome) = true := by
    rw [List.all_eq_true]
    intro c hc
    simpa using natToChars_digits n c hc
  rw [hall]
  simp only [if_true]
  congr 1
  unfold natToChars
  split
  · rename_i h; subst h; decide
  · rename_i h
    have hmap : ((natDigitsRev n).reverse.map digitToChar).map
        (fun c => (charToDigit? c).getD 0) = (natDigitsRev n).reverse := by
      rw [List.map_map]
      refine (List.map_congr_left ?_).trans (List.map_id _)
      intro d hd
      have : d < 10 := natDigitsRev_lt n d (List.mem_reverse.mp hd)
      simp [Function.comp, charToDigit?_digitToChar d this]
    rw [hmap, digitsToNat_natDigitsRev]

theorem breakFirst_not_mem (c : Char) (xs ys : List Char) (h : c ∉ xs) :
    breakFirst c (xs ++ c :: ys) = some (xs, ys) := by
  induction xs with
  | nil => simp [breakFirst]
  | cons a as ih =>
    have hac : a ≠ c := fun hh => h (hh ▸ List.mem_cons_self a as)
    have has : c ∉ as := fun hh => h (List.mem_cons_of_mem a hh)
    simp [breakFirst, hac, ih has]

theorem modeChar_ne_underscore (t : PositionType) : modeChar t ≠ '_' := by
  cases t <;> decide

theorem natToChars_ne_underscore (n : Nat) : '_' ∉ natToChars n := by
  intro h
  have := natToChars_digits n '_' h
  simp [charToDigit?] at this

theorem splitLastUnderscore_serialize (p : Position) :
    splitLastUnderscore (serializePositionChars p) =
      some (p.key.data, modeChar p.type :: natToChars p.timestamp) := by
  unfold splitLastUnderscore serializePositionChars
  have hmem : '_' ∉ (natToChars p.timestamp).reverse ++ [modeChar p.type] := by
    intro h
    rcases List.mem_append.mp h with h | h
    · exact natToChars_ne_underscore p.timestamp (List.mem_reverse.mp h)
    · rcases List.mem_singleton.mp h with h
      exact modeChar_ne_underscore p.type h.symm
  have harr : (p.key.data ++ '_' :: modeChar p.type :: natToChars p.timestamp).reverse
      = ((natToChars p.timestamp).reverse ++ [modeChar p.type]) ++ '_' :: p.key.data.reverse := by
    simp
  rw [harr, breakFirst_not_mem '_' _ _ hmem]
  simp

theorem parse_serialize_roundtrip (p : Position) :
    parsePositionChars (serializePositionChars p) = Except.ok p := by
  have hne : serializePositionChars p ≠ [] := by
    unfold serializePositionChars
    intro h
    have := congrArg List.length h
    simp at this
  rw [parsePositionChars.eq_def]
  split
  · rename_i heq
    exact absurd heq hne
  · rw [splitLastUnderscore_serialize p]
    obtain ⟨⟨kd⟩, ty, ts⟩ := p
    cases ty <;> simp [modeChar, charsToNat?_natToChars]

theorem parsePosition_serializePosition (p : Position) :
    parsePosition (serializePosition p) = Except.ok p := by
  unfold parsePosition serializePosition
  exact parse_serialize_roundtrip p

theorem convertToCDCPosition_serialize (p : Position) :
    convertToCDCPosition (serializePosition p) =
      Except.ok (serializePosition ⟨p.key, PositionType.cdc, p.timestamp⟩) := by
  unfold convertToCDCPosition
  rw [parsePosition_serializePosition]
  rfl

/-! ## CDC cache lemmas -/

theorem promote_nil_keys (l : List CacheEntry) : promote [] l = l := by
  simp [promote]

theorem promote_append (ks : List String) (l1 l2 : List CacheEntry) :
    promote ks (l1 ++ l2) = promote ks l1 ++ promote ks l2 := by
  simp [promote]

theorem promote_promote (ks1 ks2 : List String) (l : List CacheEntry) :
    promote ks2 (promote ks1 l) = promote (ks1 ++ ks2) l := by
  induction l with
  | nil => rfl
  | cons e es ih =>
    simp only [promote, List.map_cons] at ih ⊢
    refine congrArg₂ List.cons ?_ ih
    by_cases h1 : e.key ∈ ks1 <;> by_cases h2 : e.key ∈ ks2 <;>
      simp [List.contains, List.elem_eq_mem, h1, h2]

theorem populateCache_eq_aux (fromTime : Nat) (pages : List ListPage) :
    ∀ cache : List CacheEntry,
      populateCache fromTime cache pages =
        promote (allUpdatedKeys fromTime pages) cache ++ specCacheGo fromTime pages := by
  induction pages with
  | nil =>
    intro cache
    simp [populateCache, specCacheGo, allUpdatedKeys, promote_nil_keys]
  | cons pg pgs ih =>
    intro cache
    rw [populateCache, ih]
    unfold populateCachePage
    rw [promote_append, promote_promote, promote_append]
    simp [allUpdatedKeys, specCacheGo, List.append_assoc]

/-! ## JSON encoder lemmas: the escaped output holds no raw newline, so
the newline framing of makeJSONBytes is exact. -/

theorem hexDigitChar_ne_newline (d : Nat) (hd : d < 16) : hexDigitChar d ≠ '\n' := by
  interval_cases d <;> decide

theorem escapeChar_no_newline (c : Char) : '\n' ∉ escapeChar c := by
  unfold escapeChar
  split
  · decide
  · split
    · decide
    · split
      · decide
      · split
        · decide
        · split
          · decide
          · split
            · rename_i h
              intro hm
              have hle : c.toNat ≤ 62 := by
                rcases h with h | h | h | h
                · omega
                · subst h; decide
                · subst h; decide
                · subst h; decide
              have hdiv : c.toNat / 16 < 16 := by omega
              have hmod : c.toNat % 16 < 16 := by omega
              simp only [List.mem_cons, List.not_mem_nil, or_false] at hm
              rcases hm with h1 | h1 | h1 | h1 | h1 | h1
              · exact absurd h1 (by decide)
              · exact absurd h1 (by decide)
              · exact absurd h1 (by decide)
              · exact absurd h1 (by decide)
              · exact hexDigitChar_ne_newline _ hdiv h1.symm
              · exact hexDigitChar_ne_newline _ hmod h1.symm
            · rename_i h
              intro hm
              rcases List.mem_singleton.mp hm with rfl
              exact h (Or.inl (by decide))

theorem quoteJson_no_newline (s : String) : '\n' ∉ (quoteJson s).data := by
  unfold quoteJson
  intro hm
  rcases List.mem_cons.mp hm with h | h
  · exact absurd h (by decide)
  · rcases List.mem_append.mp h with h | h
    · rcases List.mem_flatten.mp h with ⟨l, hl, hmem⟩
      rcases List.mem_map.mp hl with ⟨c, _, rfl⟩
      exact escapeChar_no_newline c hmem
    · exact absurd h (by decide)

theorem no_newline_append {a b : String}
    (ha : '\n' ∉ a.data) (hb : '\n' ∉ b.data) : '\n' ∉ (a ++ b).data := by
  rw [String.data_append]
  intro hm
  rcases List.mem_append.mp hm with h | h
  · exact ha h
  · exact hb h

theorem joinComma_no_newline (l : List String) (h : ∀ s ∈ l, '\n' ∉ s.data) :
    '\n' ∉ (joinComma l).data := by
  induction l with
  | nil => simp [joinComma]
  | cons s rest ih =>
    cases rest with
    | nil => simpa [joinComma] using h s (List.mem_cons_self s [])
    | cons t ts =>
      rw [joinComma]
      · exact no_newline_append
          (no_newline_append (h s (List.mem_cons_self s (t :: ts))) (by decide))
          (ih (fun x hx => h x (List.mem_cons_of_mem s hx)))
      · exact fun hh => List.cons_ne_nil t ts hh

theorem render_no_newline (v : JVal) : '\n' ∉ (JVal.render v).data := by
  cases v with
  | str s => exact quoteJson_no_newline s
  | strObj fs =>
    rw [JVal.render]
    refine no_newline_append (no_newline_append (by decide) ?_) (by decide)
    refine joinComma_no_newline _ ?_
    intro x hx
    rcases List.mem_map.mp hx with ⟨kv, _, rfl⟩
    exact no_newline_append
      (no_newline_append (quoteJson_no_newline kv.1) (by decide))
      (quoteJson_no_newline kv.2)

theorem renderTopObj_no_newline (fs : List (String × JVal)) :
    '\n' ∉ (renderTopObj fs).data := by
  unfold renderTopObj
  refine no_newline_append (no_newline_append (by decide) ?_) (by decide)
  refine joinComma_no_newline _ ?_
  intro x hx
  rcases List.mem_map.mp hx with ⟨kv, _, rfl⟩
  exact no_newline_append
    (no_newline_append (quoteJson_no_newline kv.1) (by decide))
    (render_no_newline kv.2)

theorem jsonRecordLine_no_newline (r : Record) : '\n' ∉ (jsonRecordLine r).data :=
  renderTopObj_no_newline (jsonRecordFields r)

theorem makeJSONBytes_data (records : List Record) :
    (makeJSONBytes records).data =
      (records.map (fun r => (jsonRecordLine r).data ++ ['\n'])).flatten := by
  have hgen : ∀ acc : String,
      (List.foldl (fun buf r => buf ++ jsonRecordLine r ++ "\n") acc records).data =
        acc.data ++ (records.map (fun r => (jsonRecordLine r).data ++ ['\n'])).flatten := by
    induction records with
    | nil => intro acc; simp
    | cons r rest ih =>
      intro acc
      simp only [List.foldl_cons, List.map_cons, List.flatten_cons]
      rw [ih, String.data_append, String.data_append]
      simp
  simpa [makeJSONBytes] using hgen ""

theorem splitLines_append (xs : List Char) (rest : List Char) (h : '\n' ∉ xs) :
    splitLines (xs ++ '\n' :: rest) = xs :: splitLines rest := by
  induction xs with
  | nil => simp [splitLines]
  | cons c cs ih =>
    have hc : c ≠ '\n' := fun hh => h (hh ▸ List.mem_cons_self c cs)
    have hcs : '\n' ∉ cs := fun hh => h (List.mem_cons_of_mem c hh)
    rw [List.cons_append]
    simp only [splitLines, hc, if_false, ih hcs]

theorem splitLines_makeJSONBytes (records : List Record) :
    splitLines (makeJSONBytes records).data =
      records.map (fun r => (jsonRecordLine r).data) ++ [[]] := by
  rw [makeJSONBytes_data]
  induction records with
  | nil => simp [splitLines]
  | cons r rest ih =>
    simp only [List.map_cons, List.flatten_cons, List.append_assoc, List.singleton_append]
    rw [splitLines_append _ _ (jsonRecordLine_no_newline r), ih]
    rfl

/-! ## Snapshot iterator lemmas -/

theorem refreshPage_preserves (w : SnapshotIterator) :
    (w.refreshPage).1.client = w.client ∧
    (w.refreshPage).1.maxLastModified = w.maxLastModified := by
  unfold SnapshotIterator.refreshPage
  rcases hr : refreshLoop w.remaining with ⟨p, rem, e⟩
  simp only [hr]
  cases e
  · cases p <;> exact ⟨rfl, rfl⟩
  · exact ⟨rfl, rfl⟩

theorem hasNext_preserves (w : SnapshotIterator) :
    (w.hasNext).1.client = w.client ∧
    (w.hasNext).1.maxLastModified = w.maxLastModified := by
  unfold SnapshotIterator.hasNext
  split
  · split
    · rename_i heq
      have := refreshPage_preserves w
      rw [heq] at this
      exact this
    · rename_i heq
      have := refreshPage_preserves w
      rw [heq] at this
      exact this
  · exact ⟨rfl, rfl⟩

/-- A false snapshot HasNext makes the combined HasNext switch to a CDC
iterator seeded with the snapshot's maxLastModified (or now when zero). -/
theorem hasNext_false_switch (c : CombinedIterator) (si : SnapshotIterator) (now : Nat)
    (hsnap : c.snapshotIterator = some si)
    (hfalse : (si.hasNext).2 = false) :
    c.hasNext now =
      ({ snapshotIterator := none,
         cdcIterator := some (NewCDCIterator
           (if si.maxLastModified = 0 then now else si.maxLastModified)),
         client := c.client }, false) := by
  have hmax := (hasNext_preserves si).2
  unfold CombinedIterator.hasNext
  rw [hsnap]
  rcases hh : si.hasNext with ⟨si1, b⟩
  rw [hh] at hfalse hmax
  simp only at hfalse hmax
  subst hfalse
  simp only [hh]
  simp only [CombinedIterator.switchToCDCIterator, hmax]

/-- Once the snapshot iterator has been cleared, neither HasNext nor Next
ever restores one. -/
theorem snapshotIterator_none_permanent :
    ∀ c2 : CombinedIterator, c2.snapshotIterator = none →
      (∀ now2, ((c2.hasNext now2).1.snapshotIterator = none)) ∧
      (∀ now2, ∀ res ∈ c2.next now2, res.1.snapshotIterator = none) := by
  intro c2 hc2
  constructor
  · intro now2
    unfold CombinedIterator.hasNext
    rw [hc2]
    cases c2.cdcIterator <;> simp [hc2]
  · intro now2 res hres
    unfold CombinedIterator.next at hres
    rw [hc2] at hres
    cases hcdc : c2.cdcIterator with
    | none =>
      rw [hcdc] at hres
      rcases List.mem_singleton.mp hres with rfl
      exact hc2
    | some m =>
      rw [hcdc] at hres
      rcases List.mem_map.mp hres with ⟨pr, _, rfl⟩
      rfl

/-! ## CDC watermark lemmas -/

theorem mem_promote {e : CacheEntry} {ks : List String} {l : List CacheEntry}
    (h : e ∈ promote ks l) : ∃ e0 ∈ l, e.lastModified = e0.lastModified := by
  rcases List.mem_map.mp h with ⟨e0, he0, rfl⟩
  refine ⟨e0, he0, ?_⟩
  split <;> rfl

theorem mem_appendedCreates {e : CacheEntry} {w : Nat} {pg : ListPage}
    (h : e ∈ appendedCreates w pg) : w < e.lastModified := by
  rcases List.mem_map.mp h with ⟨v, hv, rfl⟩
  have := List.of_mem_filter hv
  simp at this
  exact this.2

theorem mem_appendedDeletes {e : CacheEntry} {w : Nat} {pg : ListPage}
    (h : e ∈ appendedDeletes w pg) : w < e.lastModified := by
  rcases List.mem_map.mp h with ⟨v, hv, rfl⟩
  have := List.of_mem_filter hv
  simp at this
  exact this.2

theorem mem_populateCachePage {e : CacheEntry} {w : Nat} {c : List CacheEntry}
    {pg : ListPage} (h : e ∈ populateCachePage w c pg) :
    (∃ e0 ∈ c, e.lastModified = e0.lastModified) ∨ w < e.lastModified := by
  unfold populateCachePage at h
  rcases List.mem_append.mp h with h | h
  · rcases mem_promote h with ⟨e0, he0, heq⟩
    rcases List.mem_append.mp he0 with h0 | h0
    · exact Or.inl ⟨e0, h0, heq⟩
    · exact Or.inr (heq ▸ mem_appendedCreates h0)
  · exact Or.inr (mem_appendedDeletes h)

theorem mem_populateCache {e : CacheEntry} {w : Nat} :
    ∀ {pgs : List ListPage} {c : List CacheEntry}, e ∈ populateCache w c pgs →
      (∃ e0 ∈ c, e.lastModified = e0.lastModified) ∨ w < e.lastModified := by
  intro pgs
  induction pgs with
  | nil =>
    intro c h
    exact Or.inl ⟨e, h, rfl⟩
  | cons pg rest ih =>
    intro c h
    rcases ih h with ⟨e0, he0, heq⟩ | hlt
    · rcases mem_populateCachePage he0 with ⟨e1, he1, heq1⟩ | hlt0
      · exact Or.inl ⟨e1, he1, heq.trans heq1⟩
      · exact Or.inr (heq ▸ hlt0)
    · exact Or.inr hlt

theorem mem_populateCache_nil {e : CacheEntry} {w : Nat} {pgs : List ListPage}
    (h : e ∈ populateCache w [] pgs) : w < e.lastModified := by
  rcases mem_populateCache h with ⟨e0, he0, _⟩ | hlt
  · cases he0
  · exact hlt

theorem getLastD_mem (l : List CacheEntry) (d : CacheEntry) (h : l ≠ []) :
    l.getLastD d ∈ l := by
  induction l generalizing d with
  | nil => cases h rfl
  | cons a t ih =>
    cases t with
    | nil => simp
    | cons b t2 =>
      have hm := ih a (List.cons_ne_nil b t2)
      rw [List.getLastD_cons]
      exact List.mem_cons_of_mem a hm

theorem sorted_le_getLastD (l : List CacheEntry) (d : CacheEntry)
    (hs : List.Sorted lmLE l) :
    ∀ e ∈ l, e.lastModified ≤ (l.getLastD d).lastModified := by
  induction l generalizing d with
  | nil => intro e he; cases he
  | cons a t ih =>
    intro e he
    rw [List.getLastD_cons]
    rcases List.mem_cons.mp he with rfl | he2
    · cases t with
      | nil => simp
      | cons b t2 =>
        have hab : lmLE e b := (List.sorted_cons.mp hs).1 b (List.mem_cons_self b t2)
        have hbl := ih e ((List.sorted_cons.mp hs).2) b (List.mem_cons_self b t2)
        exact Nat.le_trans hab hbl
    · exact ih a ((List.sorted_cons.mp hs).2) e he2

theorem cdcTick_spec (w : Nat) (pages : List ListPage) :
    w ≤ (cdcTick w pages).1 ∧
    (∀ e ∈ (cdcTick w pages).2, w < e.lastModified ∧
      e.lastModified ≤ (cdcTick w pages).1) ∧
    ((cdcTick w pages).2 ≠ [] →
      (cdcTick w pages).1 ∈ (cdcTick w pages).2.map (fun e => e.lastModified)) ∧
    ((cdcTick w pages).2 = [] → (cdcTick w pages).1 = w) := by
  by_cases hemp : populateCache w [] pages = []
  · have h1 : cdcTick w pages = (w, []) := by
      unfold cdcTick
      rw [hemp]
      rfl
    rw [h1]
    exact ⟨Nat.le_refl w, fun e he => absurd he (List.not_mem_nil e),
      fun hcon => absurd rfl hcon, fun _ => rfl⟩
  · have hienne : (populateCache w [] pages).isEmpty = false :=
      List.isEmpty_eq_false.mpr hemp
    have h1 : cdcTick w pages =
        (((List.insertionSort lmLE (populateCache w [] pages)).getLastD
            ⟨"", Operation.create, 0⟩).lastModified,
         List.insertionSort lmLE (populateCache w [] pages)) := by
      unfold cdcTick
      simp only [hienne, Bool.false_eq_true, if_false]
    rw [h1]
    have hperm := List.perm_insertionSort lmLE (populateCache w [] pages)
    have hsorted := List.sorted_insertionSort lmLE (populateCache w [] pages)
    have hsne : List.insertionSort lmLE (populateCache w [] pages) ≠ [] := by
      intro hh
      apply hemp
      have hp2 := hperm
      rw [hh] at hp2
      exact (List.Perm.eq_nil hp2.symm)
    have hlastmem := getLastD_mem _ ⟨"", Operation.create, 0⟩ hsne
    have hlast_in_cache := (List.Perm.mem_iff hperm).mp hlastmem
    refine ⟨?_, ?_, ?_, ?_⟩
    · exact Nat.le_of_lt (mem_populateCache_nil hlast_in_cache)
    · intro e he
      refine ⟨mem_populateCache_nil ((List.Perm.mem_iff hperm).mp he), ?_⟩
      exact sorted_le_getLastD _ _ hsorted e he
    · intro _
      exact List.mem_map.mpr ⟨_, hlastmem, rfl⟩
    · intro hh
      exact absurd hh hsne

theorem cdcRun_spec : ∀ (ticks : List (List ListPage)) (w : Nat),
    ∀ pr ∈ cdcRun w ticks,
      w ≤ pr.1 ∧
      (∀ e ∈ pr.2, w < e.lastModified ∧ e.lastModified ≤ pr.1) ∧
      (pr.2 ≠ [] → pr.1 ∈ pr.2.map (fun e => e.lastModified)) := by
  intro ticks
  induction ticks with
  | nil => intro w pr hpr; cases hpr
  | cons t ts ih =>
    intro w pr hpr
    rcases List.mem_cons.mp hpr with rfl | htail
    · exact ⟨(cdcTick_spec w t).1, (cdcTick_spec w t).2.1, (cdcTick_spec w t).2.2.1⟩
    · have hstep := (cdcTick_spec w t).1
      rcases ih (cdcTick w t).1 pr htail with ⟨h1, h2, h3⟩
      exact ⟨Nat.le_trans hstep h1,
        fun e he => ⟨Nat.lt_of_le_of_lt hstep (h2 e he).1, (h2 e he).2⟩, h3⟩

theorem buildRecord_position (client : Client) (e : CacheEntry) (r : Record)
    (h : buildRecord client e = Except.ok r) :
    parsePosition r.position = Except.ok ⟨e.key, PositionType.cdc, e.lastModified⟩ := by
  unfold buildRecord at h
  split at h
  · split at h
    · cases h
    · split at h
      · cases h
      · cases h
        exact parsePosition_serializePosition _
  · split at h
    · cases h
    · split at h
      · cases h
      · cases h
        exact parsePosition_serializePosition _
  · cases h
    exact parsePosition_serializePosition _
  · cases h

/-! ## Snapshot run lemmas -/

theorem goodPagesB_tail {o : Option (List String)} {rest : List (Option (List String))}
    (h : goodPagesB (o :: rest) = true) : goodPagesB rest = true := by
  unfold goodPagesB at h ⊢
  simp only [List.all_cons, Bool.and_eq_true] at h
  exact h.2

theorem refreshLoop_empty (rem : List (Option (List String)))
    (hgood : goodPagesB rem = true) (hflat : flattenPages rem = []) :
    refreshLoop rem = (none, [], none) := by
  induction rem with
  | nil => rfl
  | cons o rest ih =>
    cases o with
    | none => simp [goodPagesB] at hgood
    | some pg =>
      have hsplit : pg = [] ∧ flattenPages rest = [] := by
        have : pg ++ flattenPages rest = [] := hflat
        exact List.append_eq_nil.mp this
      rw [refreshLoop]
      rw [hsplit.1]
      simp only [List.isEmpty_nil, if_true]
      exact ih (goodPagesB_tail hgood) hsplit.2

theorem refreshLoop_nonempty (rem : List (Option (List String)))
    (hgood : goodPagesB rem = true) (hflat : flattenPages rem ≠ []) :
    ∃ pg rest, refreshLoop rem = (some pg, rest, none) ∧ pg ≠ [] ∧
      pg ++ flattenPages rest = flattenPages rem ∧ goodPagesB rest = true := by
  induction rem with
  | nil => exact absurd rfl hflat
  | cons o rest ih =>
    cases o with
    | none => simp [goodPagesB] at hgood
    | some pg =>
      have hgrest : goodPagesB rest = true := goodPagesB_tail hgood
      have hflatcons : flattenPages (some pg :: rest) = pg ++ flattenPages rest := rfl
      by_cases hpg : pg.isEmpty = true
      · have hpgnil : pg = [] := List.isEmpty_iff.mp hpg
        subst hpgnil
        rw [refreshLoop]
        simp only [List.isEmpty_nil, if_true]
        have hfrest : flattenPages rest ≠ [] := by
          rw [hflatcons] at hflat
          simpa using hflat
        obtain ⟨pg2, rest2, hl, hne, hsp, hg2⟩ := ih hgrest hfrest
        exact ⟨pg2, rest2, hl, hne, by rw [hflatcons, List.nil_append, hsp], hg2⟩
      · rw [refreshLoop]
        rw [if_neg (by simpa using hpg)]
        exact ⟨pg, rest, rfl, List.isEmpty_eq_false.mp (Bool.not_eq_true _ ▸ by
          revert hpg; cases pg.isEmpty <;> simp), hflatcons.symm, hgrest⟩

theorem pending_of_shouldRefresh (w : SnapshotIterator)
    (hidx : w.wfIndexB = true) (hsr : w.shouldRefreshPage = true) :
    w.pending = flattenPages w.remaining := by
  unfold SnapshotIterator.pending
  unfold SnapshotIterator.shouldRefreshPage at hsr
  cases hp : w.page with
  | none => simp
  | some pg =>
    rw [hp] at hsr
    simp at hsr
    simp only [Option.getD_some]
    rw [List.drop_of_length_le (Nat.le_of_eq hsr)]
    simp

theorem pending_of_not_shouldRefresh (w : SnapshotIterator) (pg : List String)
    (hidx : w.wfIndexB = true) (hsr : w.shouldRefreshPage = false)
    (hp : w.page = some pg) :
    w.index < pg.length ∧
      w.pending = (pg[w.index]?).getD "" ::
        (pg.drop (w.index + 1) ++ flattenPages w.remaining) := by
  unfold SnapshotIterator.shouldRefreshPage at hsr
  rw [hp] at hsr
  simp at hsr
  unfold SnapshotIterator.wfIndexB at hidx
  rw [hp] at hidx
  simp at hidx
  have hlt : w.index < pg.length := Nat.lt_of_le_of_ne hidx (fun hh => hsr hh.symm)
  refine ⟨hlt, ?_⟩
  unfold SnapshotIterator.pending
  rw [hp]
  simp only [Option.getD_some]
  rw [List.drop_eq_getElem_cons hlt, List.getElem?_eq_getElem hlt]
  rfl

theorem refreshPage_of_loop_some (w : SnapshotIterator) (pg : List String)
    (rest : List (Option (List String)))
    (hloop : refreshLoop w.remaining = (some pg, rest, none)) :
    w.refreshPage = ({ w with page := some pg, index := 0, remaining := rest }, none) := by
  unfold SnapshotIterator.refreshPage
  simp only [hloop]

theorem refreshPage_of_loop_empty (w : SnapshotIterator)
    (hloop : refreshLoop w.remaining = (none, [], none)) :
    w.refreshPage = ({ w with page := none, index := 0, remaining := [] },
      some IterError.backoffRetry) := by
  unfold SnapshotIterator.refreshPage
  simp only [hloop]

theorem snapshot_next_good (si : SnapshotIterator) (k : String) (ks : List String)
    (hgood : si.goodState) (hpend : si.pending = k :: ks) :
    ∃ si' obj, si.client.getObject k = some obj ∧
      si.next = (si', NextOutcome.ok
        { operation := Operation.snapshot,
          position := serializePosition ⟨k, PositionType.snapshot,
            max si.maxLastModified obj.lastModified⟩,
          key := k, payloadAfter := obj.body,
          metadata := (metaContentTypeKey, obj.contentType) :: obj.metadata }) ∧
      si'.client = si.client ∧
      si'.maxLastModified = max si.maxLastModified obj.lastModified ∧
      si'.pending = ks ∧ si'.goodState := by
  obtain ⟨hrem, hidx, hkeys⟩ := hgood
  have hkg : goodKeyB si.client k = true :=
    hkeys k (by rw [hpend]; exact List.mem_cons_self k ks)
  obtain ⟨obj, hobj, hbody, hlm⟩ :
      ∃ obj, si.client.getObject k = some obj ∧ obj.bodyReadFails = false ∧
        0 < obj.lastModified := by
    unfold goodKeyB at hkg
    cases hobj : si.client.getObject k with
    | none => rw [hobj] at hkg; cases hkg
    | some o =>
      rw [hobj] at hkg
      simp at hkg
      exact ⟨o, rfl, hkg.1, hkg.2⟩
  cases hsr : si.shouldRefreshPage with
  | true =>
    have hpf : flattenPages si.remaining = k :: ks := by
      rw [← pending_of_shouldRefresh si hidx hsr, hpend]
    obtain ⟨pg, rest, hloop, hpgne, hsplit, hgrest⟩ :=
      refreshLoop_nonempty si.remaining hrem (by rw [hpf]; exact List.cons_ne_nil _ _)
    have hcons : pg ++ flattenPages rest = k :: ks := by rw [hsplit, hpf]
    obtain ⟨pgt, rfl⟩ : ∃ t, pg = k :: t := by
      cases pg with
      | nil => exact absurd rfl hpgne
      | cons a t =>
        rw [List.cons_append] at hcons
        injection hcons with h1 _
        exact ⟨t, by rw [h1]⟩
    rw [List.cons_append] at hcons
    injection hcons with _ htail
    have hrp := refreshPage_of_loop_some si (k :: pgt) rest hloop
    have hmeta : ∀ k2 ∈ ks, goodKeyB si.client k2 = true := fun k2 hk2 =>
      hkeys k2 (by rw [hpend]; exact List.mem_cons_of_mem k hk2)
    refine ⟨{ si with page := some (k :: pgt), index := 1, remaining := rest, maxLastModified := max si.maxLastModified obj.lastModified }, obj, hobj, ?_, rfl, rfl, ?_, ?_, ?_, ?_⟩
    · unfold SnapshotIterator.next
      simp only [hsr, if_true, hrp, hobj, hbody]
      by_cases hmax : si.maxLastModified < obj.lastModified
      · simp [hobj, hbody, hmax, Nat.max_eq_right (Nat.le_of_lt hmax)]
      · simp [hobj, hbody, hmax, Nat.max_eq_left (Nat.le_of_not_lt hmax)]
    · simp only [SnapshotIterator.pending]
      simp [htail]
    · exact hgrest
    · simp [SnapshotIterator.wfIndexB]
    · intro k2 hk2
      apply hmeta
      simpa [SnapshotIterator.pending, htail] using hk2
  | false =>
    obtain ⟨pg, hp⟩ : ∃ pg, si.page = some pg := by
      cases hpp : si.page with
      | none =>
        unfold SnapshotIterator.shouldRefreshPage at hsr
        rw [hpp] at hsr
        simp at hsr
      | some pg0 => exact ⟨pg0, rfl⟩
    obtain ⟨hlt, hpdec⟩ := pending_of_not_shouldRefresh si pg hidx hsr hp
    rw [hpend] at hpdec
    injection hpdec with hhead htail
    have hgetE : pg[si.index]? = some k := by
      rw [List.getElem?_eq_getElem hlt] at hhead ⊢
      simp at hhead
      rw [hhead]
    have hmeta : ∀ k2 ∈ ks, goodKeyB si.client k2 = true := fun k2 hk2 =>
      hkeys k2 (by rw [hpend]; exact List.mem_cons_of_mem k hk2)
    refine ⟨{ si with index := si.index + 1, maxLastModified := max si.maxLastModified obj.lastModified }, obj, hobj, ?_, rfl, rfl, ?_, ?_, ?_, ?_⟩
    · unfold SnapshotIterator.next
      simp only [hsr, Bool.false_eq_true, if_false, hp, hgetE, hobj, hbody]
      by_cases hmax : si.maxLastModified < obj.lastModified
      · simp [hobj, hbody, hmax, Nat.max_eq_right (Nat.le_of_lt hmax)]
      · simp [hobj, hbody, hmax, Nat.max_eq_left (Nat.le_of_not_lt hmax)]
    · simp only [SnapshotIterator.pending]
      simp [hp, ← htail]
    · exact hrem
    · simp [SnapshotIterator.wfIndexB, hp]
      omega
    · intro k2 hk2
      apply hmeta
      simpa [SnapshotIterator.pending, hp, ← htail] using hk2

theorem snapshot_hasNext_nonempty (si : SnapshotIterator)
    (hgood : si.goodState) (hne : si.pending ≠ []) :
    ∃ si', si.hasNext = (si', true) ∧ si'.client = si.client ∧
      si'.maxLastModified = si.maxLastModified ∧ si'.pending = si.pending ∧
      si'.goodState := by
  obtain ⟨hrem, hidx, hkeys⟩ := hgood
  cases hsr : si.shouldRefreshPage with
  | false =>
    refine ⟨si, ?_, rfl, rfl, rfl, ⟨hrem, hidx, hkeys⟩⟩
    unfold SnapshotIterator.hasNext
    simp [hsr]
  | true =>
    have hpf : si.pending = flattenPages si.remaining :=
      pending_of_shouldRefresh si hidx hsr
    obtain ⟨pg, rest, hloop, hpgne, hsplit, hgrest⟩ :=
      refreshLoop_nonempty si.remaining hrem (by rw [← hpf]; exact hne)
    have hrp := refreshPage_of_loop_some si pg rest hloop
    refine ⟨{ si with page := some pg, index := 0, remaining := rest }, ?_, rfl, rfl, ?_, ?_⟩
    · unfold SnapshotIterator.hasNext
      simp [hsr, hrp]
    · show List.drop 0 pg ++ flattenPages rest = si.pending
      rw [List.drop_zero, hsplit, ← hpf]
    · refine ⟨hgrest, by simp [SnapshotIterator.wfIndexB], ?_⟩
      intro k2 hk2
      apply hkeys
      rw [hpf, ← hsplit]
      have hk2' : k2 ∈ List.drop 0 pg ++ flattenPages rest := hk2
      simpa using hk2'

theorem snapshot_hasNext_empty (si : SnapshotIterator)
    (hgood : si.goodState) (hemp : si.pending = []) :
    ∃ si', si.hasNext = (si', false) ∧ si'.maxLastModified = si.maxLastModified := by
  obtain ⟨hrem, hidx, hkeys⟩ := hgood
  have hsr : si.shouldRefreshPage = true := by
    cases hsr : si.shouldRefreshPage with
    | true => rfl
    | false =>
      obtain ⟨pg, hp⟩ : ∃ pg, si.page = some pg := by
        cases hpp : si.page with
        | none =>
          unfold SnapshotIterator.shouldRefreshPage at hsr
          rw [hpp] at hsr
          simp at hsr
        | some pg0 => exact ⟨pg0, rfl⟩
      obtain ⟨hlt, hpdec⟩ := pending_of_not_shouldRefresh si pg hidx hsr hp
      rw [hemp] at hpdec
      cases hpdec
  have hpf : flattenPages si.remaining = [] := by
    rw [← pending_of_shouldRefresh si hidx hsr, hemp]
  have hloop := refreshLoop_empty si.remaining hrem hpf
  have hrp := refreshPage_of_loop_empty si hloop
  refine ⟨{ si with page := none, index := 0, remaining := [] }, ?_, rfl⟩
  unfold SnapshotIterator.hasNext
  simp [hsr, hrp]

theorem combinedRunSnapshot_none (now fuel : Nat) (c : CombinedIterator)
    (h : c.snapshotIterator = none) : combinedRunSnapshot now fuel c = ([], c) := by
  cases fuel with
  | zero => rfl
  | succ f =>
    unfold combinedRunSnapshot
    rw [h]

theorem runMax_cons (cl : Client) (m : Nat) (k : String) (ks : List String)
    (obj : S3Object) (hobj : cl.getObject k = some obj) :
    runMax cl m (k :: ks) = runMax cl (max m obj.lastModified) ks := by
  show runMax cl (max m (objLM cl k)) ks = runMax cl (max m obj.lastModified) ks
  simp only [objLM, hobj]

theorem le_runMax (cl : Client) : ∀ (ks : List String) (m : Nat), m ≤ runMax cl m ks := by
  intro ks
  induction ks with
  | nil => intro m; exact Nat.le_refl m
  | cons k t ih =>
    intro m
    calc m ≤ max m (objLM cl k) := Nat.le_max_left _ _
      _ ≤ runMax cl (max m (objLM cl k)) t := ih _

theorem combinedRunSnapshot_good :
    ∀ (ks : List String) (si : SnapshotIterator) (c : CombinedIterator) (now fuel : Nat),
      c.snapshotIterator = some si → si.goodState → si.pending = ks → ks ≠ [] →
      ks.length ≤ fuel →
      ∃ rs : List Record,
        combinedRunSnapshot now fuel c =
          (rs, { snapshotIterator := none,
                 cdcIterator := some (NewCDCIterator
                   (if runMax si.client si.maxLastModified ks = 0 then now
                    else runMax si.client si.maxLastModified ks)),
                 client := c.client }) ∧
        rs.length = ks.length ∧
        (∃ lastRec, rs.getLast? = some lastRec ∧
          lastRec.position = serializePosition
            ⟨ks.getLastD "", PositionType.cdc,
             runMax si.client si.maxLastModified ks⟩) := by
  intro ks
  induction ks with
  | nil =>
    intro si c now fuel _ _ _ hne _
    exact absurd rfl hne
  | cons k ks2 ih =>
    intro si c now fuel hsnap hgood hpend hne hfuel
    cases fuel with
    | zero => simp at hfuel
    | succ f =>
      obtain ⟨si1, obj, hobj, hnext, hcl1, hmax1, hpend1, hgood1⟩ :=
        snapshot_next_good si k ks2 hgood hpend
      have hrm := runMax_cons si.client si.maxLastModified k ks2 obj hobj
      cases ks2 with
      | nil =>
        obtain ⟨si2, hhn, hmax2⟩ := snapshot_hasNext_empty si1 hgood1 hpend1
        have hM2 : si2.maxLastModified = max si.maxLastModified obj.lastModified := by
          rw [hmax2, hmax1]
        have hrmk : runMax si.client si.maxLastModified [k] =
            max si.maxLastModified obj.lastModified := by
          rw [hrm]; rfl
        have hcnext : c.next now =
            [({ snapshotIterator := none,
                cdcIterator := some (NewCDCIterator
                  (if max si.maxLastModified obj.lastModified = 0 then now
                   else max si.maxLastModified obj.lastModified)),
                client := c.client },
              NextOutcome.ok
                { operation := Operation.snapshot,
                  position := serializePosition ⟨k, PositionType.cdc,
                    max si.maxLastModified obj.lastModified⟩,
                  key := k, payloadAfter := obj.body,
                  metadata := (metaContentTypeKey, obj.contentType) :: obj.metadata })] := by
          unfold CombinedIterator.next
          rw [hsnap]
          simp only [hnext, hhn, CombinedIterator.switchToCDCIterator, hM2,
            convertToCDCPosition_serialize]
        have hrun : combinedRunSnapshot now (f + 1) c =
            ([{ operation := Operation.snapshot,
                position := serializePosition ⟨k, PositionType.cdc,
                  max si.maxLastModified obj.lastModified⟩,
                key := k, payloadAfter := obj.body,
                metadata := (metaContentTypeKey, obj.contentType) :: obj.metadata }],
             { snapshotIterator := none,
               cdcIterator := some (NewCDCIterator
                 (if max si.maxLastModified obj.lastModified = 0 then now
                  else max si.maxLastModified obj.lastModified)),
               client := c.client }) := by
          unfold combinedRunSnapshot
          rw [hsnap]
          simp only [hcnext]
          rw [combinedRunSnapshot_none now f _ rfl]
        refine ⟨[⟨Operation.snapshot,
            serializePosition ⟨k, PositionType.cdc, max si.maxLastModified obj.lastModified⟩,
            k, obj.body, (metaContentTypeKey, obj.contentType) :: obj.metadata⟩],
          ?_, rfl, _, rfl, ?_⟩
        · rw [hrmk]
          exact hrun
        · rw [hrmk]
          rfl
      | cons k2 ks3 =>
        obtain ⟨si2, hhn, hcl2, hmax2, hpend2, hgood2⟩ :=
          snapshot_hasNext_nonempty si1 hgood1
            (by rw [hpend1]; exact List.cons_ne_nil _ _)
        have hpend2' : si2.pending = k2 :: ks3 := by rw [hpend2, hpend1]
        have hfuel' : (k2 :: ks3).length ≤ f := by
          simp only [List.length_cons] at hfuel ⊢
          omega
        obtain ⟨rs2, hrun2, hlen2, lastRec, hlast2, hpos2⟩ :=
          ih si2 { c with snapshotIterator := some si2 } now f rfl hgood2 hpend2'
            (List.cons_ne_nil _ _) hfuel'
        have hmaxeq : runMax si2.client si2.maxLastModified (k2 :: ks3) =
            runMax si.client si.maxLastModified (k :: k2 :: ks3) := by
          rw [hcl2, hcl1, hmax2, hmax1, hrm]
        have hcnext : c.next now =
            [({ c with snapshotIterator := some si2 },
              NextOutcome.ok
                { operation := Operation.snapshot,
                  position := serializePosition ⟨k, PositionType.snapshot,
                    max si.maxLastModified obj.lastModified⟩,
                  key := k, payloadAfter := obj.body,
                  metadata := (metaContentTypeKey, obj.contentType) :: obj.metadata })] := by
          unfold CombinedIterator.next
          rw [hsnap]
          simp only [hnext, hhn]
        have hrun : combinedRunSnapshot now (f + 1) c =
            ({ operation := Operation.snapshot,
               position := serializePosition ⟨k, PositionType.snapshot,
                 max si.maxLastModified obj.lastModified⟩,
               key := k, payloadAfter := obj.body,
               metadata := (metaContentTypeKey, obj.contentType) :: obj.metadata } :: rs2,
             { snapshotIterator := none,
               cdcIterator := some (NewCDCIterator
                 (if runMax si2.client si2.maxLastModified (k2 :: ks3) = 0 then now
                  else runMax si2.client si2.maxLastModified (k2 :: ks3))),
               client := c.client }) := by
          unfold combinedRunSnapshot
          rw [hsnap]
          simp only [hcnext]
          rw [hrun2]
        refine ⟨⟨Operation.snapshot,
            serializePosition ⟨k, PositionType.snapshot, max si.maxLastModified obj.lastModified⟩,
            k, obj.body, (metaContentTypeKey, obj.contentType) :: obj.metadata⟩ :: rs2,
          ?_, ?_, lastRec, ?_, ?_⟩
        · rw [← hmaxeq]
          exact hrun
        · simp [hlen2]
        · cases rs2 with
          | nil => simp at hlen2
          | cons b l =>
            rw [List.getLast?_cons_cons]
            exact hlast2
        · rw [List.getLastD_cons, ← hmaxeq]
          exact hpos2

theorem runMax_pos (cl : Client) (ks : List String) (m : Nat)
    (hk : ∀ k ∈ ks, goodKeyB cl k = true) (hne : ks ≠ []) : 0 < runMax cl m ks := by
  cases ks with
  | nil => exact absurd rfl hne
  | cons k t =>
    have hg := hk k (List.mem_cons_self k t)
    have hlm : 0 < objLM cl k := by
      unfold goodKeyB at hg
      unfold objLM
      cases ho : cl.getObject k with
      | none => rw [ho] at hg; cases hg
      | some o =>
        rw [ho] at hg
        simp at hg
        simpa using hg.2
    calc 0 < objLM cl k := hlm
      _ ≤ max m (objLM cl k) := Nat.le_max_right _ _
      _ ≤ runMax cl (max m (objLM cl k)) t := le_runMax cl t _
      _ = runMax cl m (k :: t) := rfl

/-! ## Claim theorems -/

/-- C7: the JSON encoder produces exactly one newline-terminated JSON
object per record — splitting the output on newlines yields the marshalled
objects in the batch's input order plus the final empty chunk after the
last newline, possible because the escaper never lets a raw newline
through — and each object carries exactly the fields Operation, Position,
Payload, Key, Metadata, where Position, the after-image Payload and Key
are encoded as strings of their raw bytes and Metadata as a JSON object of
the metadata map (keys in Go's sorted map-marshal order). -/
theorem json_format_newline_delimited :
    (∀ records : List Record,
      splitLines (makeJSONBytes records).data =
        records.map (fun r => (jsonRecordLine r).data) ++ [[]]) ∧
    (∀ r : Record,
      jsonRecordLine r = renderTopObj
        [("Operation", JVal.str (opString r.operation)),
         ("Position", JVal.str r.position),
         ("Payload", JVal.str r.payloadAfter),
         ("Key", JVal.str r.key),
         ("Metadata", JVal.strObj (sortByKey r.metadata))]) :=
  ⟨splitLines_makeJSONBytes, fun _ => rfl⟩

/-- C10: in the snapshot iterator's Next the page index is advanced before
the object is fetched, so when GetObject fails — or, third conjunct, when
reading the fetched object's body fails (in which case maxLastModified has
already been updated as well) — the call returns an error with the entry
permanently skipped: the state differs from the input exactly by the
incremented index (plus the max update in the body-read case), and a
subsequent Next proceeds to the following listing entry instead of
retrying the failed key. -/
theorem snapshot_next_error_skips (w : SnapshotIterator) (pg : List String) (k : String)
    (hpage : w.page = some pg)
    (hidx : pg[w.index]? = some k)
    (hfail : w.client.getObject k = none) :
    w.next = ({ w with index := w.index + 1 }, NextOutcome.err IterError.objectFetchFailed) ∧
    (∀ k2 obj, pg[w.index + 1]? = some k2 →
        w.client.getObject k2 = some obj → obj.bodyReadFails = false →
        ∃ w2 : SnapshotIterator,
          ({ w with index := w.index + 1 } : SnapshotIterator).next =
            (w2, NextOutcome.ok
              { operation := Operation.snapshot,
                position := serializePosition ⟨k2, PositionType.snapshot, w2.maxLastModified⟩,
                key := k2,
                payloadAfter := obj.body,
                metadata := (metaContentTypeKey, obj.contentType) :: obj.metadata })) ∧
    (∀ w2 : SnapshotIterator, ∀ pg2 k3 obj3, w2.page = some pg2 →
        pg2[w2.index]? = some k3 →
        w2.client.getObject k3 = some obj3 → obj3.bodyReadFails = true →
        w2.next = ({ w2 with index := w2.index + 1, maxLastModified := max w2.maxLastModified obj3.lastModified }, NextOutcome.err IterError.bodyReadFailed) ∧
        (∀ k4 obj4, pg2[w2.index + 1]? = some k4 →
            w2.client.getObject k4 = some obj4 → obj4.bodyReadFails = false →
            ∃ w3 : SnapshotIterator,
              ({ w2 with index := w2.index + 1, maxLastModified := max w2.maxLastModified obj3.lastModified } : SnapshotIterator).next =
                (w3, NextOutcome.ok
                  { operation := Operation.snapshot,
                    position := serializePosition
                      ⟨k4, PositionType.snapshot, w3.maxLastModified⟩,
                    key := k4,
                    payloadAfter := obj4.body,
                    metadata := (metaContentTypeKey, obj4.contentType) :: obj4.metadata }))) := by
  have hlt : w.index < pg.length := (List.getElem?_eq_some.mp hidx).1
  have hsr : w.shouldRefreshPage = false := by
    simp [SnapshotIterator.shouldRefreshPage, hpage]
    omega
  refine ⟨?_, ?_, ?_⟩
  · simp [SnapshotIterator.next, hsr, hpage, hidx, hfail]
  · intro k2 obj hidx2 hget2 hbody
    have hlt2 : w.index + 1 < pg.length := (List.getElem?_eq_some.mp hidx2).1
    have hsr1 : ({ w with page := some pg, index := w.index + 1 } :
        SnapshotIterator).shouldRefreshPage = false := by
      simp [SnapshotIterator.shouldRefreshPage]
      omega
    by_cases hmax : w.maxLastModified < obj.lastModified
    · exact ⟨{ w with index := w.index + 2, maxLastModified := obj.lastModified },
        by simp [SnapshotIterator.next, hsr1, hpage, hidx2, hget2, hbody, hmax]⟩
    · exact ⟨{ w with index := w.index + 2 },
        by simp [SnapshotIterator.next, hsr1, hpage, hidx2, hget2, hbody, hmax]⟩
  · intro w2 pg2 k3 obj3 hpage2 hidx3 hget3 hbody3
    have hlt3 : w2.index < pg2.length := (List.getElem?_eq_some.mp hidx3).1
    have hsr2 : w2.shouldRefreshPage = false := by
      simp [SnapshotIterator.shouldRefreshPage, hpage2]
      omega
    constructor
    · unfold SnapshotIterator.next
      simp only [hsr2, Bool.false_eq_true, if_false, hpage2, hidx3, hget3, hbody3]
      by_cases hmax : w2.maxLastModified < obj3.lastModified
      · simp [hget3, hbody3, hmax, Nat.max_eq_right (Nat.le_of_lt hmax)]
      · simp [hget3, hbody3, hmax, Nat.max_eq_left (Nat.le_of_not_lt hmax)]
    · intro k4 obj4 hidx4 hget4 hbody4
      have hlt4 : w2.index + 1 < pg2.length := (List.getElem?_eq_some.mp hidx4).1
      have hsr3 : ({ w2 with page := some pg2, index := w2.index + 1, maxLastModified := max w2.maxLastModified obj3.lastModified } : SnapshotIterator).shouldRefreshPage = false := by
        simp [SnapshotIterator.shouldRefreshPage]
        omega
      by_cases hmax : max w2.maxLastModified obj3.lastModified < obj4.lastModified
      · exact ⟨{ w2 with index := w2.index + 2, maxLastModified := obj4.lastModified },
          by simp [SnapshotIterator.next, hsr3, hpage2, hidx4, hget4, hbody4, hmax]⟩
      · exact ⟨{ w2 with index := w2.index + 2, maxLastModified := max w2.maxLastModified obj3.lastModified },
          by simp [SnapshotIterator.next, hsr3, hpage2, hidx4, hget4, hbody4, hmax]⟩

/-- Witness for C10: a two-entry page where the first key's GetObject
fails and the second key resolves, plus the body-read-failure conjunct. -/
theorem snapshot_next_error_skips_witness :
    (let cl : Client := ⟨[], [⟨"b", 3, "B", "ct", [], false⟩]⟩
     let w : SnapshotIterator := ⟨cl, [], some ["a", "b"], 0, 0⟩
     w.page = some ["a", "b"] ∧ ((["a", "b"] : List String)[w.index]? = some "a") ∧
     cl.getObject "a" = none) ∧
    (let cl : Client := ⟨[], [⟨"b", 3, "B", "ct", [], false⟩]⟩
     let w : SnapshotIterator := ⟨cl, [], some ["a", "b"], 0, 0⟩
     w.next = ({ w with index := w.index + 1 }, NextOutcome.err IterError.objectFetchFailed) ∧
     (∀ k2 obj, (["a", "b"] : List String)[w.index + 1]? = some k2 →
        w.client.getObject k2 = some obj → obj.bodyReadFails = false →
        ∃ w2 : SnapshotIterator,
          ({ w with index := w.index + 1 } : SnapshotIterator).next =
            (w2, NextOutcome.ok
              { operation := Operation.snapshot,
                position := serializePosition ⟨k2, PositionType.snapshot, w2.maxLastModified⟩,
                key := k2,
                payloadAfter := obj.body,
                metadata := (metaContentTypeKey, obj.contentType) :: obj.metadata })) ∧
     (∀ w2 : SnapshotIterator, ∀ pg2 k3 obj3, w2.page = some pg2 →
        pg2[w2.index]? = some k3 →
        w2.client.getObject k3 = some obj3 → obj3.bodyReadFails = true →
        w2.next = ({ w2 with index := w2.index + 1, maxLastModified := max w2.maxLastModified obj3.lastModified }, NextOutcome.err IterError.bodyReadFailed) ∧
        (∀ k4 obj4, pg2[w2.index + 1]? = some k4 →
            w2.client.getObject k4 = some obj4 → obj4.bodyReadFails = false →
            ∃ w3 : SnapshotIterator,
              ({ w2 with index := w2.index + 1, maxLastModified := max w2.maxLastModified obj3.lastModified } : SnapshotIterator).next =
                (w3, NextOutcome.ok
                  { operation := Operation.snapshot,
                    position := serializePosition
                      ⟨k4, PositionType.snapshot, w3.maxLastModified⟩,
                    key := k4,
                    payloadAfter := obj4.body,
                    metadata := (metaContentTypeKey, obj4.contentType) :: obj4.metadata })))) :=
  ⟨⟨rfl, rfl, rfl⟩, snapshot_next_error_skips _ ["a", "b"] "a" rfl rfl rfl⟩

/-- C9: whenever the combined iterator is in snapshot mode and the
snapshot iterator's HasNext comes back false — paginator exhausted
(backoff) and page-fetch failure alike — the combined HasNext reports
false and switches to a CDC iterator seeded with the snapshot's current
maxLastModified, or the current time when that is zero; and the switch is
permanent: once the snapshot iterator is cleared, no later HasNext or Next
ever restores one. -/
theorem combined_hasNext_switch (c : CombinedIterator) (si : SnapshotIterator) (now : Nat)
    (hsnap : c.snapshotIterator = some si)
    (hfalse : (si.hasNext).2 = false) :
    c.hasNext now =
      ({ snapshotIterator := none,
         cdcIterator := some (NewCDCIterator
           (if si.maxLastModified = 0 then now else si.maxLastModified)),
         client := c.client }, false) ∧
    (∀ c2 : CombinedIterator, c2.snapshotIterator = none →
      (∀ now2, ((c2.hasNext now2).1.snapshotIterator = none)) ∧
      (∀ now2, ∀ res ∈ c2.next now2, res.1.snapshotIterator = none)) :=
  ⟨hasNext_false_switch c si now hsnap hfalse, snapshotIterator_none_permanent⟩

/-- Witness for C9 at two concrete states: a combined iterator over an
exhausted paginator (empty bucket, switch seeded with now = 42) and one
whose next page fetch fails (maxLastModified 7, switch seeded with 7). -/
theorem combined_hasNext_switch_witness :
    ((⟨some ⟨⟨[], []⟩, [], none, 0, 0⟩, none, ⟨[], []⟩⟩ :
        CombinedIterator).snapshotIterator = some ⟨⟨[], []⟩, [], none, 0, 0⟩ ∧
     ((⟨⟨[], []⟩, [], none, 0, 0⟩ : SnapshotIterator).hasNext).2 = false ∧
     (⟨some ⟨⟨[none], []⟩, [none], none, 0, 7⟩, none, ⟨[none], []⟩⟩ :
        CombinedIterator).snapshotIterator = some ⟨⟨[none], []⟩, [none], none, 0, 7⟩ ∧
     ((⟨⟨[none], []⟩, [none], none, 0, 7⟩ : SnapshotIterator).hasNext).2 = false) ∧
    ((⟨some ⟨⟨[], []⟩, [], none, 0, 0⟩, none, ⟨[], []⟩⟩ : CombinedIterator).hasNext 42 =
      (⟨none, some (NewCDCIterator 42), ⟨[], []⟩⟩, false)) ∧
    ((⟨some ⟨⟨[none], []⟩, [none], none, 0, 7⟩, none, ⟨[none], []⟩⟩ :
        CombinedIterator).hasNext 99 =
      (⟨none, some (NewCDCIterator 7), ⟨[none], []⟩⟩, false)) ∧
    (∀ c2 : CombinedIterator, c2.snapshotIterator = none →
      (∀ now2, ((c2.hasNext now2).1.snapshotIterator = none)) ∧
      (∀ now2, ∀ res ∈ c2.next now2, res.1.snapshotIterator = none)) :=
  ⟨⟨rfl, rfl, rfl, rfl⟩,
   (combined_hasNext_switch ⟨some ⟨⟨[], []⟩, [], none, 0, 0⟩, none, ⟨[], []⟩⟩
     ⟨⟨[], []⟩, [], none, 0, 0⟩ 42 rfl rfl).1,
   (combined_hasNext_switch ⟨some ⟨⟨[none], []⟩, [none], none, 0, 7⟩, none, ⟨[none], []⟩⟩
     ⟨⟨[none], []⟩, [none], none, 0, 7⟩ 99 rfl rfl).1,
   (combined_hasNext_switch ⟨some ⟨⟨[], []⟩, [], none, 0, 0⟩, none, ⟨[], []⟩⟩
     ⟨⟨[], []⟩, [], none, 0, 0⟩ 42 rfl rfl).2⟩

/-- C1: over any well-behaved bucket listing whose snapshot phase emits at
least one record, the very last record the combined iterator emits from
the snapshot phase carries a CDC-mode Position whose timestamp equals the
maximum lastModified observed across the snapshot (the fold of max over
the fetched objects, seeded with the zeroed start position), and the CDC
iterator the combined iterator then creates starts exactly from that
maximum; when the bucket is empty, the switch happens on HasNext and the
CDC iterator is seeded with the current time instead. -/
theorem combined_snapshot_handoff (client : Client) (p : Position) (now fuel : Nat)
    (hp : p.type = PositionType.snapshot)
    (hpages : goodPagesB client.pages = true)
    (hkeys : ∀ k ∈ flattenPages client.pages, goodKeyB client k = true)
    (hfuel : (flattenPages client.pages).length ≤ fuel) :
    (flattenPages client.pages ≠ [] →
      ∃ rs lastRec,
        combinedRunSnapshot now fuel (NewCombinedIterator client p) =
          (rs, { snapshotIterator := none,
                 cdcIterator := some (NewCDCIterator
                   (runMax client 0 (flattenPages client.pages))),
                 client := client }) ∧
        rs.length = (flattenPages client.pages).length ∧
        rs.getLast? = some lastRec ∧
        parsePosition lastRec.position = Except.ok
          ⟨(flattenPages client.pages).getLastD "", PositionType.cdc,
           runMax client 0 (flattenPages client.pages)⟩ ∧
        0 < runMax client 0 (flattenPages client.pages)) ∧
    (flattenPages client.pages = [] →
      (NewCombinedIterator client p).hasNext now =
        ({ snapshotIterator := none, cdcIterator := some (NewCDCIterator now),
           client := client }, false)) := by
  obtain ⟨pk, pty, pts⟩ := p
  have hp' : pty = PositionType.snapshot := hp
  subst hp'
  have hsnap : (NewCombinedIterator client ⟨pk, PositionType.snapshot, pts⟩).snapshotIterator
      = some (NewSnapshotIterator client Position.zero) := rfl
  have hgood : (NewSnapshotIterator client Position.zero).goodState := by
    refine ⟨hpages, rfl, ?_⟩
    intro k hk
    exact hkeys k hk
  constructor
  · intro hne
    obtain ⟨rs, hrun, hlen, lastRec, hlast, hposeq⟩ :=
      combinedRunSnapshot_good (flattenPages client.pages)
        (NewSnapshotIterator client Position.zero)
        (NewCombinedIterator client ⟨pk, PositionType.snapshot, pts⟩)
        now fuel hsnap hgood rfl hne hfuel
    have hpos : 0 < runMax client 0 (flattenPages client.pages) :=
      runMax_pos client (flattenPages client.pages) 0 hkeys hne
    rw [show (NewSnapshotIterator client Position.zero).client = client from rfl,
      show (NewSnapshotIterator client Position.zero).maxLastModified = 0 from rfl]
      at hrun hposeq
    rw [if_neg (by omega)] at hrun
    refine ⟨rs, lastRec, hrun, hlen, hlast, ?_, hpos⟩
    rw [hposeq, parsePosition_serializePosition]
  · intro hempty
    obtain ⟨si2, hhn, hmax2⟩ :=
      snapshot_hasNext_empty (NewSnapshotIterator client Position.zero) hgood hempty
    have hres := hasNext_false_switch
      (NewCombinedIterator client ⟨pk, PositionType.snapshot, pts⟩)
      (NewSnapshotIterator client Position.zero) now hsnap (by rw [hhn])
    simpa using hres

/-- Witness for C1 on a concrete three-page listing (one page empty) with
objects a (lastModified 5) and b (lastModified 9): the run emits two
records, the CDC iterator starts from 9, and the last record's position
parses to the CDC position of b at 9; plus the empty-bucket half on an
empty client at now = 100. -/
theorem combined_snapshot_handoff_witness :
    ((Position.type ⟨"x", PositionType.snapshot, 3⟩ = PositionType.snapshot) ∧
     goodPagesB (Client.pages ⟨[some ["a"], some [], some ["b"]],
        [⟨"a", 5, "A", "cta", [], false⟩, ⟨"b", 9, "B", "ctb", [], false⟩]⟩) = true ∧
     (∀ k ∈ flattenPages (Client.pages ⟨[some ["a"], some [], some ["b"]],
        [⟨"a", 5, "A", "cta", [], false⟩, ⟨"b", 9, "B", "ctb", [], false⟩]⟩),
        goodKeyB ⟨[some ["a"], some [], some ["b"]],
          [⟨"a", 5, "A", "cta", [], false⟩, ⟨"b", 9, "B", "ctb", [], false⟩]⟩ k = true) ∧
     (flattenPages (Client.pages ⟨[some ["a"], some [], some ["b"]],
        [⟨"a", 5, "A", "cta", [], false⟩, ⟨"b", 9, "B", "ctb", [], false⟩]⟩)).length ≤ 2 ∧
     flattenPages (Client.pages ⟨[some ["a"], some [], some ["b"]],
        [⟨"a", 5, "A", "cta", [], false⟩, ⟨"b", 9, "B", "ctb", [], false⟩]⟩) ≠ []) ∧
    (∃ rs lastRec,
      combinedRunSnapshot 100 2 (NewCombinedIterator
          ⟨[some ["a"], some [], some ["b"]],
           [⟨"a", 5, "A", "cta", [], false⟩, ⟨"b", 9, "B", "ctb", [], false⟩]⟩
          ⟨"x", PositionType.snapshot, 3⟩) =
        (rs, { snapshotIterator := none,
               cdcIterator := some (NewCDCIterator 9),
               client := ⟨[some ["a"], some [], some ["b"]],
                 [⟨"a", 5, "A", "cta", [], false⟩, ⟨"b", 9, "B", "ctb", [], false⟩]⟩ }) ∧
      rs.length = 2 ∧
      rs.getLast? = some lastRec ∧
      parsePosition lastRec.position = Except.ok ⟨"b", PositionType.cdc, 9⟩ ∧
      (0 : Nat) < 9) ∧
    ((NewCombinedIterator ⟨[], []⟩ ⟨"", PositionType.snapshot, 0⟩).hasNext 100 =
      ({ snapshotIterator := none, cdcIterator := some (NewCDCIterator 100),
         client := ⟨[], []⟩ }, false)) :=
  ⟨⟨rfl, by decide, by decide, by decide, by decide⟩,
   (combined_snapshot_handoff
      ⟨[some ["a"], some [], some ["b"]],
       [⟨"a", 5, "A", "cta", [], false⟩, ⟨"b", 9, "B", "ctb", [], false⟩]⟩
      ⟨"x", PositionType.snapshot, 3⟩ 100 2 rfl (by decide) (by decide) (by decide)).1
     (by decide),
   (combined_snapshot_handoff ⟨[], []⟩ ⟨"", PositionType.snapshot, 0⟩ 100 0 rfl
      (by decide) (by decide) (by decide)).2 rfl⟩

/-- C3: along any run of the CDC scan loop started at watermark from,
every batch entry of every tick has lastModified strictly above from — and
the record built for an entry carries exactly the entry's lastModified as
its CDC position timestamp, so no record with position timestamp at or
below from is ever emitted; after every non-empty tick the watermark
equals the greatest lastModified of that tick's batch; the watermark never
moves backwards; and because the run threads the advanced watermark into
the remaining ticks (third conjunct) while the per-suffix bound holds for
every starting watermark, no version with lastModified at or below the
current watermark is ever emitted again. -/
theorem cdc_watermark (w0 : Nat) (ticks : List (List ListPage)) :
    (∀ pr ∈ cdcRun w0 ticks,
      w0 ≤ pr.1 ∧
      (∀ e ∈ pr.2, w0 < e.lastModified ∧ e.lastModified ≤ pr.1) ∧
      (pr.2 ≠ [] → pr.1 ∈ pr.2.map (fun e => e.lastModified))) ∧
    (∀ t ts, cdcRun w0 (t :: ts) = cdcTick w0 t :: cdcRun (cdcTick w0 t).1 ts) ∧
    (∀ client e r, buildRecord client e = Except.ok r →
      parsePosition r.position = Except.ok ⟨e.key, PositionType.cdc, e.lastModified⟩) :=
  ⟨cdcRun_spec ticks w0, fun _ _ => rfl, buildRecord_position⟩

/-- Witness for C3 on a concrete one-tick run at watermark 2: entries with
lastModified 5 and 7 pass, 1 is filtered, the watermark advances to the
batch maximum 7, and the built record's position parses back to the
entry's CDC position. -/
theorem cdc_watermark_witness :
    (((7 : Nat), [(⟨"a", Operation.create, 5⟩ : CacheEntry), ⟨"b", Operation.create, 7⟩]) ∈
        cdcRun 2 [[⟨[⟨"a", 5, true⟩, ⟨"b", 7, true⟩, ⟨"c", 1, true⟩], []⟩]] ∧
     (⟨"a", Operation.create, 5⟩ : CacheEntry) ∈
        [(⟨"a", Operation.create, 5⟩ : CacheEntry), ⟨"b", Operation.create, 7⟩] ∧
     buildRecord ⟨[], [⟨"a", 5, "A", "ct", [], false⟩]⟩ ⟨"a", Operation.create, 5⟩ =
        Except.ok ⟨Operation.create, serializePosition ⟨"a", PositionType.cdc, 5⟩, "a", "A",
          [(metaContentTypeKey, "ct")]⟩) ∧
    ((2 : Nat) ≤ 7 ∧
     ((2 : Nat) < 5 ∧ (5 : Nat) ≤ 7) ∧
     (7 : Nat) ∈ [(⟨"a", Operation.create, 5⟩ : CacheEntry),
        ⟨"b", Operation.create, 7⟩].map (fun e => e.lastModified) ∧
     parsePosition (serializePosition ⟨"a", PositionType.cdc, 5⟩) =
        Except.ok ⟨"a", PositionType.cdc, 5⟩) := by
  have h1 := (cdc_watermark 2 [[⟨[⟨"a", 5, true⟩, ⟨"b", 7, true⟩, ⟨"c", 1, true⟩], []⟩]]).1
    (7, [⟨"a", Operation.create, 5⟩, ⟨"b", Operation.create, 7⟩]) (by decide)
  have h2 := (cdc_watermark 2 [[⟨[⟨"a", 5, true⟩, ⟨"b", 7, true⟩, ⟨"c", 1, true⟩], []⟩]]).2.2
    ⟨[], [⟨"a", 5, "A", "ct", [], false⟩]⟩ ⟨"a", Operation.create, 5⟩
    ⟨Operation.create, serializePosition ⟨"a", PositionType.cdc, 5⟩, "a", "A",
      [(metaContentTypeKey, "ct")]⟩ rfl
  exact ⟨⟨by decide, by decide, rfl⟩,
    h1.1, h1.2.1 ⟨"a", Operation.create, 5⟩ (by decide), h1.2.2 (by decide), h2⟩

/-- C2 counterexample: with watermark 0 and a two-page listing — page one
holding only a latest delete marker for key k (lastModified 5), page two
a non-latest version of k — the entry appended as a Delete is promoted to
Update by the second page's pass, so the final cache holds no Delete entry
for the latest delete marker and an operation was promoted that was not a
Create, against the claim's description of the appended entries and the
promotion condition. -/
theorem populateCache_delete_promoted :
    populateCache 0 [] [⟨[], [⟨"k", 5, true⟩]⟩, ⟨[⟨"k", 3, false⟩], []⟩] =
      [⟨"k", Operation.update, 5⟩] := by
  decide

/-- C2 amended: in every CDC poll tick the scan appends exactly a Create
entry per latest version newer than the watermark and a Delete entry per
latest delete marker newer than the watermark, page by page; and an
entry's operation ends up Update exactly when some version row that is not
appended as a Create (IsLatest false, or lastModified at or before the
watermark) shares its key and sits in the entry's own page or a later page
— for entries appended as Deletes, in a strictly later page (each page's
Deletes are appended after that page's promotion pass). -/
theorem populateCache_characterization (fromTime : Nat) (pages : List ListPage) :
    populateCache fromTime [] pages = specCacheGo fromTime pages := by
  have h := populateCache_eq_aux fromTime pages []
  simpa [promote] using h

/-- C4: for every Position p, parsing the serialization of p yields p
again, even when the key contains underscores (the serializer splits on the
last underscore); parsing empty input yields the zero Position; and parsing
fails for an unknown mode character or a non-integer timestamp. -/
theorem position_codec_roundtrip :
    (∀ p : Position, parsePosition (serializePosition p) = Except.ok p) ∧
    parsePosition "" = Except.ok Position.zero ∧
    parsePosition "a_b_c_c1634049397" =
      Except.ok ⟨"a_b_c", PositionType.cdc, 1634049397⟩ ∧
    parsePosition "k_x123" = Except.error "invalid position format" ∧
    parsePosition "k_s12a" = Except.error "invalid position format" :=
  ⟨parsePosition_serializePosition, rfl, rfl, rfl, rfl⟩

/-- C8 counterexample: the format value original is neither json nor
parquet and indeed falls to the default bin extension and octet-stream
content type, yet MakeBytes dispatches it to the original encoder instead
of failing with the unsupported-format error of the default branch. -/
theorem original_format_not_unsupported :
    formatExt "original" = "bin" ∧
    formatMimeType "original" = "application/octet-stream" ∧
    formatMakeBytes "original" [] = MakeBytesResult.originalBytes [] ∧
    formatMakeBytes "original" [] ≠ MakeBytesResult.unsupportedFormat "original" := by
  refine ⟨rfl, rfl, rfl, ?_⟩
  decide

/-- C8 amended: for every format value other than json, parquet and
original, the extension defaults to bin, the content type to
application/octet-stream, and MakeBytes fails with the unsupported-format
error; original shares the bin/octet-stream defaults but is dispatched to
its own encoder rather than failing. -/
theorem unknown_format_defaults (f : String) (records : List Record)
    (hp : f ≠ "parquet") (hj : f ≠ "json") (ho : f ≠ "original") :
    formatExt f = "bin" ∧
    formatMimeType f = "application/octet-stream" ∧
    formatMakeBytes f records = MakeBytesResult.unsupportedFormat f := by
  unfold formatExt formatMimeType formatMakeBytes
  simp [hp, hj, ho]

/-- Witness for the amended C8 at the format value csv. -/
theorem unknown_format_defaults_witness :
    ("csv" ≠ "parquet" ∧ "csv" ≠ "json" ∧ "csv" ≠ "original") ∧
    (formatExt "csv" = "bin" ∧
     formatMimeType "csv" = "application/octet-stream" ∧
     formatMakeBytes "csv" [] = MakeBytesResult.unsupportedFormat "csv") :=
  ⟨⟨by decide, by decide, by decide⟩,
   unknown_format_defaults "csv" [] (by decide) (by decide) (by decide)⟩

/-- C5 counterexample: a Snapshot-mode start position with Timestamp 5
handed to NewCombinedIterator yields a snapshot iterator whose
maxLastModified is 0, not the position's Timestamp. -/
theorem combined_snapshot_seed_counterexample :
    ((NewCombinedIterator ⟨[], []⟩ ⟨"k", PositionType.snapshot, 5⟩).snapshotIterator.map
      SnapshotIterator.maxLastModified) = some 0 ∧ (0 : Nat) ≠ 5 := by
  decide

/-- C5 amended: the combined iterator's snapshot construction path
discards the whole start position: the snapshot iterator is built from the
zero position, so its maxLastModified is seeded with zero rather than
startPosition.Timestamp, and the paginator restarts from the beginning of
the bucket listing; startPosition.Key is likewise ignored.
(NewSnapshotIterator itself does seed maxLastModified from its own
position argument's Timestamp, but the combined path hands it the zero
position.) -/
theorem combined_snapshot_discards_position (client : Client) (p : Position)
    (h : p.type = PositionType.snapshot) :
    (NewCombinedIterator client p).snapshotIterator =
      some (NewSnapshotIterator client Position.zero) ∧
    (NewCombinedIterator client p).cdcIterator = none ∧
    (NewSnapshotIterator client Position.zero).maxLastModified = 0 ∧
    (NewSnapshotIterator client Position.zero).remaining = client.pages ∧
    (∀ q : Position, (NewSnapshotIterator client q).maxLastModified = q.timestamp) := by
  obtain ⟨k, ty, ts⟩ := p
  have h' : ty = PositionType.snapshot := h
  subst h'
  exact ⟨rfl, rfl, rfl, rfl, fun q => rfl⟩

/-- Witness for the amended C5 at a concrete client and position. -/
theorem combined_snapshot_discards_position_witness :
    (Position.type ⟨"k", PositionType.snapshot, 5⟩ = PositionType.snapshot) ∧
    ((NewCombinedIterator ⟨[some ["a"]], []⟩ ⟨"k", PositionType.snapshot, 5⟩).snapshotIterator =
      some (NewSnapshotIterator ⟨[some ["a"]], []⟩ Position.zero) ∧
     (NewCombinedIterator ⟨[some ["a"]], []⟩ ⟨"k", PositionType.snapshot, 5⟩).cdcIterator = none ∧
     (NewSnapshotIterator ⟨[some ["a"]], []⟩ Position.zero).maxLastModified = 0 ∧
     (NewSnapshotIterator ⟨[some ["a"]], []⟩ Position.zero).remaining = [some ["a"]] ∧
     (∀ q : Position,
        (NewSnapshotIterator ⟨[some ["a"]], []⟩ q).maxLastModified = q.timestamp)) :=
  ⟨rfl, combined_snapshot_discards_position ⟨[some ["a"]], []⟩ ⟨"k", PositionType.snapshot, 5⟩ rfl⟩

/-- C6: in the terminal state after the supervised tasks died on an error
(tomb dead, buffer drained, flush's deferred close run), HasNext still
returns true; but Next's select has two ready cases, so besides the stored
terminal error it may return the zero record with no error, since a receive
from the closed empty buffer channel yields the zero value immediately.
The record-less Next call is therefore not guaranteed to return the stored
error, contradicting the claim (and the HasNext comment in the code). -/
theorem cdc_dead_state_next :
    (CDCMachine.deadState 7 "scan failed").hasNext = true ∧
    (CDCMachine.deadState 7 "scan failed").nextResults =
      [(CDCMachine.deadState 7 "scan failed", NextOutcome.ok Record.zero),
       (CDCMachine.deadState 7 "scan failed",
        NextOutcome.err (IterError.tombError "scan failed"))] := by
  decide

end ConduitS3
